import Mathlib

/-!
# OvenMediaEngine: fragmentation header codec and per-session userdata registry

A shallow embedding of

* `FragmentationHeader` (`src/projects/base/common_types.h`), and
* `FileUserdataSets` (`src/projects/publishers/file/file_userdata.cpp`).

Conventions of the embedding:

* a byte is a natural number below 256, a byte buffer (`ov::Data`) is a `List Nat`;
* `std::vector<T>` is a `List Nat` whose elements fit the C++ element type `T`
  (`FragmentationHeader.WellTyped`);
* `size_t` is 64 bits wide, `size_t` arithmetic that can wrap is written with
  an explicit `% 2 ^ 64`; the object representation of integers is little-endian;
* a read cursor `(bytes, length)` is the list of the `length` bytes that start at
  `bytes`.
-/

namespace ov

/-- The width of `size_t` in bytes. -/
def sizeof_size_t : Nat := 8

/-- Object representation of an unsigned integer of `w` bytes: the `w` low
bytes of `n`, least significant first. -/
def toBytes : Nat → Nat → List Nat
  | 0, _ => []
  | w + 1, n => n % 256 :: toBytes w (n / 256)

/-- The unsigned integer whose object representation is `bs`. -/
def ofBytes : List Nat → Nat
  | [] => 0
  | b :: bs => b + 256 * ofBytes bs

/-- The bytes of the elements of a vector, `w` bytes per element, in order. -/
def writeElems (w : Nat) : List Nat → List Nat
  | [] => []
  | x :: xs => toBytes w x ++ writeElems w xs

/-- Reads `n` elements of `w` bytes each from the front of `bs`. -/
def readElems (w : Nat) : Nat → List Nat → List Nat
  | 0, _ => []
  | n + 1, bs => ofBytes (bs.take w) :: readElems w n (bs.drop w)

/-- The block of one vector: its element count as a `size_t`, then its elements. -/
def block (w : Nat) (vector : List Nat) : List Nat :=
  toBytes sizeof_size_t vector.length ++ writeElems w vector

/-- Modelled from the spec: `ov::Serialize(ov::Data &, const std::vector<T> &)`
(base/ovlibrary, outside the two files embedded here), with `w = sizeof(T)`.  It
appends to the buffer a length-prefixed block: the number of elements, then the
elements in their original order. -/
def Serialize (data : List Nat) (w : Nat) (vector : List Nat) : List Nat :=
  data ++ block w vector

/-- Modelled from the spec: `ov::Deserialize(const uint8_t *&bytes, size_t &length,
std::vector<T> &vector, size_t &bytes_consumed)` (base/ovlibrary, outside the
two files embedded here), with `w = sizeof(T)`.  It decodes one length-prefixed block
from the cursor and succeeds only if enough bytes remain; on success it yields
the decoded vector, the cursor advanced by what was read (the remaining length
shrinks by the same amount) and the byte counter increased by it.  `none` is the
result `false`, which leaves the target vector and the counter as they were. -/
def Deserialize (w : Nat) (bytes : List Nat) (bytes_consumed : Nat) :
    Option (List Nat × List Nat × Nat) :=
  if bytes.length < sizeof_size_t then none
  else
    let size := ofBytes (bytes.take sizeof_size_t)
    let rest := bytes.drop sizeof_size_t
    if rest.length < size * w then none
    else
      some (readElems w size rest, rest.drop (size * w),
        (bytes_consumed + (sizeof_size_t + size * w)) % 2 ^ 64)

end ov

/-- The struct `FragmentationHeader`: four parallel vectors (`std::vector<size_t>`,
`std::vector<size_t>`, `std::vector<uint16_t>`, `std::vector<uint8_t>`) and a flag.
The default value is the freshly constructed header. -/
structure FragmentationHeader where
  fragmentation_offset : List Nat := []
  fragmentation_length : List Nat := []
  fragmentation_time_diff : List Nat := []
  fragmentation_pl_type : List Nat := []
  last_fragment_complete : Bool := false
deriving DecidableEq, Repr

namespace FragmentationHeader

/-- Every element fits its C++ element type and every vector size fits `size_t`. -/
def WellTyped (h : FragmentationHeader) : Prop :=
  (∀ x ∈ h.fragmentation_offset, x < 2 ^ 64) ∧
  (∀ x ∈ h.fragmentation_length, x < 2 ^ 64) ∧
  (∀ x ∈ h.fragmentation_time_diff, x < 2 ^ 16) ∧
  (∀ x ∈ h.fragmentation_pl_type, x < 2 ^ 8) ∧
  h.fragmentation_offset.length < 2 ^ 64 ∧
  h.fragmentation_length.length < 2 ^ 64 ∧
  h.fragmentation_time_diff.length < 2 ^ 64 ∧
  h.fragmentation_pl_type.length < 2 ^ 64

instance (h : FragmentationHeader) : Decidable h.WellTyped := by
  unfold WellTyped; infer_instance

/-- The condition `GetCount` hands to `OV_ASSERT2` on entry (line 98). -/
def GetCount_OV_ASSERT2 (self : FragmentationHeader) : Bool :=
  self.fragmentation_offset.length == self.fragmentation_length.length

/-- The value `GetCount` returns (line 100). -/
def GetCount (self : FragmentationHeader) : Nat :=
  min self.fragmentation_offset.length self.fragmentation_length.length

/-- The method `GetCount` as a whole: the `OV_ASSERT2` of line 98, then the
`return` of line 100.  The macro `OV_ASSERT2` is defined in base/ovlibrary,
outside the two files embedded here, and is taken as a parameter:
`OV_ASSERT2_stops` says whether a violated assertion ends the call (as `assert`
does) or lets it go on (as an assertion that is compiled out, or that only logs,
does).  `none` is a call the assertion ended, `some n` a call that returned `n`. -/
def GetCount_asserted (OV_ASSERT2_stops : Bool) (self : FragmentationHeader) : Option Nat :=
  if !self.GetCount_OV_ASSERT2 && OV_ASSERT2_stops then none
  else some self.GetCount

/-- The comparison `operator==`. -/
def eq (self other : FragmentationHeader) : Bool :=
  self.fragmentation_offset == other.fragmentation_offset &&
  self.fragmentation_length == other.fragmentation_length &&
  self.fragmentation_time_diff == other.fragmentation_time_diff &&
  self.fragmentation_pl_type == other.fragmentation_pl_type &&
  self.last_fragment_complete == other.last_fragment_complete

/-- The comparison `operator!=`, which negates `other == *this`. -/
def ne (self other : FragmentationHeader) : Bool :=
  !(eq other self)

/-- The method `Clear`. -/
def Clear (self : FragmentationHeader) : FragmentationHeader :=
  { self with
    fragmentation_offset := []
    fragmentation_length := []
    fragmentation_time_diff := []
    fragmentation_pl_type := []
    last_fragment_complete := false }

/-- The method `IsEmpty`. -/
def IsEmpty (self : FragmentationHeader) : Bool :=
  self.fragmentation_offset.isEmpty && self.fragmentation_length.isEmpty

/-- The byte `Append(&last_fragment_complete, sizeof(bool))` writes. -/
def flagByte (b : Bool) : Nat := if b then 1 else 0

/-- The method `Serialize`: four blocks appended to an empty buffer, then the
flag byte. -/
def Serialize (self : FragmentationHeader) : List Nat :=
  let fragmentation_header_data : List Nat := []
  let fragmentation_header_data :=
    ov.Serialize fragmentation_header_data ov.sizeof_size_t self.fragmentation_offset
  let fragmentation_header_data :=
    ov.Serialize fragmentation_header_data ov.sizeof_size_t self.fragmentation_length
  let fragmentation_header_data :=
    ov.Serialize fragmentation_header_data 2 self.fragmentation_time_diff
  let fragmentation_header_data :=
    ov.Serialize fragmentation_header_data 1 self.fragmentation_pl_type
  fragmentation_header_data ++ [flagByte self.last_fragment_complete]

/-- The method `Deserialize`.  The result is the returned `bool`, the header
afterwards and `bytes_consumed` afterwards.  The four block decodes are chained
by `&&`, so the first failure skips the rest; the flag is read, and one more
byte counted, only when all four succeeded and a byte remains. -/
def Deserialize (self : FragmentationHeader) (data : List Nat) (bytes_consumed : Nat) :
    Bool × FragmentationHeader × Nat :=
  match ov.Deserialize ov.sizeof_size_t data bytes_consumed with
  | none => (false, self, bytes_consumed)
  | some (v1, bytes1, c1) =>
    let self1 := { self with fragmentation_offset := v1 }
    match ov.Deserialize ov.sizeof_size_t bytes1 c1 with
    | none => (false, self1, c1)
    | some (v2, bytes2, c2) =>
      let self2 := { self1 with fragmentation_length := v2 }
      match ov.Deserialize 2 bytes2 c2 with
      | none => (false, self2, c2)
      | some (v3, bytes3, c3) =>
        let self3 := { self2 with fragmentation_time_diff := v3 }
        match ov.Deserialize 1 bytes3 c3 with
        | none => (false, self3, c3)
        | some (v4, bytes4, c4) =>
          let self4 := { self3 with fragmentation_pl_type := v4 }
          match bytes4 with
          | [] => (false, self4, c4)
          | b :: _ =>
            (true, { self4 with last_fragment_complete := (b != 0) }, (c4 + 1) % 2 ^ 64)

end FragmentationHeader

/-! ## The per-session userdata registry -/

/-- Modelled from the spec: the class `FileUserdata` (declared in file_userdata.h,
outside the two files embedded here): adapter-specific per-session state that embeds
a numeric session identifier.  `context` stands for the rest of the state. -/
structure FileUserdata where
  session_id : Nat
  context : Nat
deriving DecidableEq, Repr

/-- Modelled from the spec: `FileUserdata::GetSessionId`, the embedded session
identifier. -/
def FileUserdata.GetSessionId (self : FileUserdata) : Nat := self.session_id

/-- What a call does: it returns a value, or its behaviour is undefined (an
iterator moved past `end()`, a null pointer dereferenced). -/
inductive Outcome (α : Type) where
  | returns (a : α)
  | undefined
deriving DecidableEq, Repr

/-- Modelled from the spec: the container behind `_userdata_sets` (declared in
file_userdata.h, outside the two files embedded here): a keyed, insertion-ordered
mapping with unique keys.  It is the list of its entries in iteration order;
`insert_or_assign k v` is what `m[k] = v` does: re-setting an existing key
replaces its value in place, a new key is added at the end. -/
def insert_or_assign (k : String) (v : Option FileUserdata) :
    List (String × Option FileUserdata) → List (String × Option FileUserdata)
  | [] => [(k, v)]
  | e :: es => if e.1 = k then (k, v) :: es else e :: insert_or_assign k v es

/-- The standard library's `std::advance(iter, n)` on the container above, an
iterator being its distance from `begin()`: the C++ standard leaves moving an
iterator past `end()` undefined. -/
def advance (m : List (String × Option FileUserdata)) (iter n : Nat) : Outcome Nat :=
  if iter + n ≤ m.length then .returns (iter + n) else .undefined

/-- The class `FileUserdataSets`: its member `_userdata_sets`, empty after the
constructor.  A `std::shared_ptr<FileUserdata>` is an `Option FileUserdata`,
`none` being the null pointer. -/
structure FileUserdataSets where
  _userdata_sets : List (String × Option FileUserdata) := []
deriving DecidableEq, Repr

/-- The method `Set`: the returned `bool` and the registry afterwards. -/
def FileUserdataSets.Set (self : FileUserdataSets) (userdata_id : String)
    (userdata : Option FileUserdata) : Bool × FileUserdataSets :=
  (true, { self with _userdata_sets := insert_or_assign userdata_id userdata self._userdata_sets })

/-- The method `GetAt`: `none` is the returned `nullptr`. -/
def FileUserdataSets.GetAt (self : FileUserdataSets) (index : Nat) :
    Outcome (Option FileUserdata) :=
  match advance self._userdata_sets 0 index with
  | .undefined => .undefined
  | .returns iter =>
    if iter = self._userdata_sets.length then .returns none
    else
      match self._userdata_sets.get? iter with
      | some e => .returns e.2
      | none => .undefined

/-- The method `GetKeyAt`: `none` is the `ov::String` built from `nullptr`. -/
def FileUserdataSets.GetKeyAt (self : FileUserdataSets) (index : Nat) :
    Outcome (Option String) :=
  match advance self._userdata_sets 0 index with
  | .undefined => .undefined
  | .returns iter =>
    if iter = self._userdata_sets.length then .returns none
    else
      match self._userdata_sets.get? iter with
      | some e => .returns (some e.1)
      | none => .undefined

/-- The method `GetByKey`: `find`, then the mapped value or `nullptr`. -/
def FileUserdataSets.GetByKey (self : FileUserdataSets) (key : String) :
    Option FileUserdata :=
  match self._userdata_sets.find? (fun e => e.1 == key) with
  | none => none
  | some e => e.2

/-- The loop of `GetBySessionId` over the entries still to visit. -/
def FileUserdataSets.scanSessionId (session_id : Nat) :
    List (String × Option FileUserdata) → Outcome (Option FileUserdata)
  | [] => .returns none
  | item :: items =>
    match item.2 with
    | none => .undefined
    | some userdata =>
      if userdata.GetSessionId = session_id then .returns (some userdata)
      else scanSessionId session_id items

/-- The method `GetBySessionId`. -/
def FileUserdataSets.GetBySessionId (self : FileUserdataSets) (session_id : Nat) :
    Outcome (Option FileUserdata) :=
  FileUserdataSets.scanSessionId session_id self._userdata_sets

/-- The method `GetCount`: `size()` converted to `uint32_t`. -/
def FileUserdataSets.GetCount (self : FileUserdataSets) : Nat :=
  self._userdata_sets.length % 2 ^ 32

/-- The registry after `Set` was called with each pair of `kvs` in order. -/
def FileUserdataSets.SetAll (self : FileUserdataSets)
    (kvs : List (String × Option FileUserdata)) : FileUserdataSets :=
  kvs.foldl (fun r kv => (r.Set kv.1 kv.2).2) self

/-! ## The type taxonomy and its display names -/

/-- The `enum class StreamSourceType : int8_t`; a value of the type is its
underlying integer, the enumerators are numbered from 0 in declaration order. -/
structure StreamSourceType where
  value : Int
deriving DecidableEq, Repr

namespace StreamSourceType

def Ovt : StreamSourceType := ⟨0⟩
def Rtmp : StreamSourceType := ⟨1⟩
def Rtsp : StreamSourceType := ⟨2⟩
def RtspPull : StreamSourceType := ⟨3⟩
def Mpegts : StreamSourceType := ⟨4⟩
def Transcoder : StreamSourceType := ⟨5⟩

/-- The declared enumerators. -/
def enumerators : List StreamSourceType := [Ovt, Rtmp, Rtsp, RtspPull, Mpegts, Transcoder]

end StreamSourceType

/-- The `enum class ProviderType : int8_t`. -/
structure ProviderType where
  value : Int
deriving DecidableEq, Repr

namespace ProviderType

def Unknown : ProviderType := ⟨0⟩
def Rtmp : ProviderType := ⟨1⟩
def Rtsp : ProviderType := ⟨2⟩
def RtspPull : ProviderType := ⟨3⟩
def Ovt : ProviderType := ⟨4⟩
def Mpegts : ProviderType := ⟨5⟩

/-- The declared enumerators other than the placeholder `Unknown`. -/
def genuine : List ProviderType := [Rtmp, Rtsp, RtspPull, Ovt, Mpegts]

end ProviderType

/-- The `enum class PublisherType : int8_t`. -/
structure PublisherType where
  value : Int
deriving DecidableEq, Repr

namespace PublisherType

def Unknown : PublisherType := ⟨0⟩
def Webrtc : PublisherType := ⟨1⟩
def Rtmp : PublisherType := ⟨2⟩
def RtmpPush : PublisherType := ⟨3⟩
def Hls : PublisherType := ⟨4⟩
def Dash : PublisherType := ⟨5⟩
def LlDash : PublisherType := ⟨6⟩
def Ovt : PublisherType := ⟨7⟩
def File : PublisherType := ⟨8⟩
def NumberOfPublishers : PublisherType := ⟨9⟩

/-- The declared enumerators other than the placeholders `Unknown` and
`NumberOfPublishers`. -/
def genuine : List PublisherType := [Webrtc, Rtmp, RtmpPush, Hls, Dash, LlDash, Ovt, File]

end PublisherType

/-- The `enum class FrameType : int8_t`. -/
structure FrameType where
  value : Int
deriving DecidableEq, Repr

namespace FrameType

def EmptyFrame : FrameType := ⟨0⟩
def AudioFrameKey : FrameType := ⟨1⟩
def AudioFrameDelta : FrameType := ⟨2⟩
def AudioFrameSpeech : FrameType := ⟨3⟩
def AudioFrameCN : FrameType := ⟨4⟩
def VideoFrameKey : FrameType := ⟨5⟩
def VideoFrameDelta : FrameType := ⟨6⟩

end FrameType

/-- Modelled from the spec: the enumeration `common::MediaCodecId` (declared in
base/mediarouter/media_type.h, outside the two files embedded here): the
enumerators that `StringFromMediaCodecId` names; `other` stands for every further
value of the type. -/
inductive MediaCodecId where
  | None | H264 | H265 | Vp8 | Vp9 | Flv | Aac | Mp3 | Opus | Jpeg | Png
  | other (value : Int)
deriving DecidableEq, Repr

/-- Modelled from the spec: the enumeration `common::MediaType` (declared in
base/mediarouter/media_type.h, outside the two files embedded here): the
enumerators that `StringFromMediaType` names; `other` stands for every further
value of the type. -/
inductive MediaType where
  | Unknown | Video | Audio | Data | Subtitle | Attachment
  | other (value : Int)
deriving DecidableEq, Repr

/-- The function `StringFromStreamSourceType`: a `switch` with a `default`. -/
def StringFromStreamSourceType (type : StreamSourceType) : String :=
  if type = StreamSourceType.Ovt then "Ovt"
  else if type = StreamSourceType.Rtmp then "Rtmp"
  else if type = StreamSourceType.Rtsp then "Rtsp"
  else if type = StreamSourceType.RtspPull then "RtspPull"
  else if type = StreamSourceType.Transcoder then "Transcoder"
  else "Unknown"

/-- The function `StringFromProviderType`: a `switch` without `default`, then
`return "Unknown"`. -/
def StringFromProviderType (type : ProviderType) : String :=
  if type = ProviderType.Unknown then "Unknown"
  else if type = ProviderType.Rtmp then "RTMP"
  else if type = ProviderType.Rtsp then "RTSP"
  else if type = ProviderType.RtspPull then "RTSP Pull"
  else if type = ProviderType.Ovt then "OVT"
  else if type = ProviderType.Mpegts then "MPEG-TS"
  else "Unknown"

/-- The function `StringFromPublisherType`: a `switch` without `default`, then
`return "Unknown"`. -/
def StringFromPublisherType (type : PublisherType) : String :=
  if type = PublisherType.Unknown ∨ type = PublisherType.NumberOfPublishers then "Unknown"
  else if type = PublisherType.Webrtc then "WebRTC"
  else if type = PublisherType.Rtmp then "RTMP"
  else if type = PublisherType.RtmpPush then "RTMPPush"
  else if type = PublisherType.Hls then "HLS"
  else if type = PublisherType.Dash then "DASH"
  else if type = PublisherType.LlDash then "LLDASH"
  else if type = PublisherType.Ovt then "Ovt"
  else if type = PublisherType.File then "File"
  else "Unknown"

/-- The function `StringFromMediaCodecId`; `None` shares the `default` branch. -/
def StringFromMediaCodecId (type : MediaCodecId) : String :=
  match type with
  | .H264 => "H264"
  | .H265 => "H265"
  | .Vp8 => "VP8"
  | .Vp9 => "VP9"
  | .Flv => "FLV"
  | .Aac => "AAC"
  | .Mp3 => "MP3"
  | .Opus => "OPUS"
  | .Jpeg => "JPEG"
  | .Png => "PNG"
  | .None => "Unknwon"
  | .other _ => "Unknwon"

/-- The function `StringFromMediaType`; `Unknown` shares the `default` branch. -/
def StringFromMediaType (type : MediaType) : String :=
  match type with
  | .Video => "Video"
  | .Audio => "Audio"
  | .Data => "Data"
  | .Subtitle => "Subtitle"
  | .Attachment => "Attachment"
  | .Unknown => "Unknown"
  | .other _ => "Unknown"

/-! ## The encoded access unit -/

/-- The struct `EncodedFrame` with its default member initialisers; a
`std::shared_ptr<ov::Data>` is an `Option (List Nat)`, `none` being the null
pointer. -/
structure EncodedFrame where
  _encoded_width : Int := 0
  _encoded_height : Int := 0
  _time_stamp : Int := 0
  _duration : Int := 0
  _frame_type : FrameType := FrameType.VideoFrameDelta
  _buffer : Option (List Nat)
  _length : Nat := 0
  _size : Nat := 0
  _complete_frame : Bool := false
deriving DecidableEq, Repr

set_option linter.dupNamespace false in
/-- The constructor `EncodedFrame(buffer, length, size)`: it initialises `_buffer`,
`_length` and `_size` from its arguments and has an empty body. -/
def EncodedFrame.EncodedFrame (buffer : Option (List Nat)) (length size : Nat) :
    EncodedFrame :=
  { _buffer := buffer, _length := length, _size := size }

/-! ## The block codec -/

namespace ov

theorem toBytes_length (w n : Nat) : (toBytes w n).length = w := by
  induction w generalizing n with
  | zero => rfl
  | succ w ih => simp [toBytes, ih]

theorem toBytes_lt (w n : Nat) : ∀ b ∈ toBytes w n, b < 256 := by
  induction w generalizing n with
  | zero => simp [toBytes]
  | succ w ih =>
    intro b hb
    simp only [toBytes, List.mem_cons] at hb
    rcases hb with rfl | hb
    · exact Nat.mod_lt _ (by norm_num)
    · exact ih _ b hb

theorem ofBytes_toBytes (w n : Nat) : ofBytes (toBytes w n) = n % 256 ^ w := by
  induction w generalizing n with
  | zero => simp [toBytes, ofBytes, Nat.mod_one]
  | succ w ih =>
    simp only [toBytes, ofBytes, ih]
    rw [pow_succ, Nat.mul_comm (256 ^ w) 256, Nat.mod_mul]

theorem ofBytes_lt (bs : List Nat) (hb : ∀ b ∈ bs, b < 256) :
    ofBytes bs < 256 ^ bs.length := by
  induction bs with
  | nil => simp [ofBytes]
  | cons b bs ih =>
    have h1 : b < 256 := hb b (List.mem_cons_self _ _)
    have h2 := ih (fun x hx => hb x (List.mem_cons_of_mem _ hx))
    simp only [ofBytes, List.length_cons, pow_succ]
    omega

theorem toBytes_ofBytes (bs : List Nat) (hb : ∀ b ∈ bs, b < 256) :
    toBytes bs.length (ofBytes bs) = bs := by
  induction bs with
  | nil => rfl
  | cons b bs ih =>
    have h1 : b < 256 := hb b (List.mem_cons_self _ _)
    have h2 := ih (fun x hx => hb x (List.mem_cons_of_mem _ hx))
    simp only [ofBytes, List.length_cons, toBytes]
    have e1 : (b + 256 * ofBytes bs) % 256 = b := by omega
    have e2 : (b + 256 * ofBytes bs) / 256 = ofBytes bs := by omega
    rw [e1, e2, h2]

theorem writeElems_length (w : Nat) (v : List Nat) :
    (writeElems w v).length = v.length * w := by
  induction v with
  | nil => simp [writeElems]
  | cons x xs ih =>
    simp only [writeElems, List.length_append, toBytes_length, ih, List.length_cons]
    ring

theorem readElems_length (w n : Nat) (bs : List Nat) : (readElems w n bs).length = n := by
  induction n generalizing bs with
  | zero => rfl
  | succ n ih => simp [readElems, ih]

theorem readElems_writeElems (w : Nat) (v rest : List Nat) :
    readElems w v.length (writeElems w v ++ rest) = v.map (fun x => x % 256 ^ w) := by
  induction v with
  | nil => rfl
  | cons x xs ih =>
    simp only [writeElems, List.length_cons, readElems, List.map_cons, List.append_assoc]
    have hl : (toBytes w x).length = w := toBytes_length w x
    rw [List.take_left' hl, List.drop_left' hl, ofBytes_toBytes, ih]

theorem writeElems_readElems (w n : Nat) (bs : List Nat) (hb : ∀ b ∈ bs, b < 256)
    (hn : n * w ≤ bs.length) :
    writeElems w (readElems w n bs) = bs.take (n * w) := by
  induction n generalizing bs with
  | zero => simp [readElems, writeElems]
  | succ n ih =>
    have hw : w ≤ bs.length := by
      have : (n + 1) * w = n * w + w := by ring
      omega
    have hlen : (bs.take w).length = w := by simp [hw]
    have hdrop : n * w ≤ (bs.drop w).length := by
      have : (n + 1) * w = n * w + w := by ring
      simp only [List.length_drop]; omega
    have h1 : toBytes w (ofBytes (bs.take w)) = bs.take w := by
      have := toBytes_ofBytes (bs.take w) (fun b hb1 => hb b (List.mem_of_mem_take hb1))
      rwa [hlen] at this
    simp only [readElems, writeElems]
    rw [h1, ih (bs.drop w) (fun b hb1 => hb b (List.mem_of_mem_drop hb1)) hdrop]
    have e : (n + 1) * w = w + n * w := by ring
    rw [e, List.take_add]

theorem readElems_lt (w n : Nat) (bs : List Nat) (hb : ∀ b ∈ bs, b < 256)
    (hn : n * w ≤ bs.length) : ∀ x ∈ readElems w n bs, x < 256 ^ w := by
  induction n generalizing bs with
  | zero => simp [readElems]
  | succ n ih =>
    have e : (n + 1) * w = n * w + w := by ring
    have hw : w ≤ bs.length := by omega
    have hdrop : n * w ≤ (bs.drop w).length := by
      simp only [List.length_drop]; omega
    intro x hx
    simp only [readElems, List.mem_cons] at hx
    rcases hx with rfl | hx
    · have := ofBytes_lt (bs.take w) (fun b hb1 => hb b (List.mem_of_mem_take hb1))
      simpa [hw] using this
    · exact ih (bs.drop w) (fun b hb1 => hb b (List.mem_of_mem_drop hb1)) hdrop x hx

theorem block_length (w : Nat) (v : List Nat) :
    (block w v).length = sizeof_size_t + v.length * w := by
  simp [block, toBytes_length, writeElems_length]

/-- Decoding a block that is followed by arbitrary bytes yields the vector (each
element reduced to its `w` bytes), stops right after the block and counts its
length. -/
theorem Deserialize_block (w : Nat) (v rest : List Nat) (c : Nat)
    (hv : v.length < 2 ^ 64) :
    Deserialize w (block w v ++ rest) c =
      some (v.map (fun x => x % 256 ^ w), rest, (c + (block w v).length) % 2 ^ 64) := by
  have hl : (toBytes sizeof_size_t v.length).length = sizeof_size_t := toBytes_length _ _
  have hsz : ofBytes (toBytes sizeof_size_t v.length) = v.length := by
    rw [ofBytes_toBytes]
    exact Nat.mod_eq_of_lt (by simpa [sizeof_size_t] using hv)
  have hwl : (writeElems w v).length = v.length * w := writeElems_length w v
  unfold Deserialize
  have h1 : ¬ (block w v ++ rest).length < sizeof_size_t := by
    simp [block_length]; omega
  rw [if_neg h1]
  simp only [block, List.append_assoc]
  rw [List.take_left' hl, List.drop_left' hl, hsz]
  have h2 : ¬ (writeElems w v ++ rest).length < v.length * w := by
    simp [hwl]
  rw [if_neg h2, readElems_writeElems, List.drop_left' hwl]
  simp [hl, hwl]

/-- Decoding a strict prefix of a block fails. -/
theorem Deserialize_strict_prefix (w : Nat) (v p q : List Nat) (c : Nat)
    (hv : v.length < 2 ^ 64) (hq : q ≠ []) (hp : block w v = p ++ q) :
    Deserialize w p c = none := by
  have hl : (toBytes sizeof_size_t v.length).length = sizeof_size_t := toBytes_length _ _
  have hsz : ofBytes (toBytes sizeof_size_t v.length) = v.length := by
    rw [ofBytes_toBytes]
    exact Nat.mod_eq_of_lt (by simpa [sizeof_size_t] using hv)
  have hqpos : 0 < q.length := List.length_pos.mpr hq
  have hlen : p.length + q.length = sizeof_size_t + v.length * w := by
    rw [← List.length_append, ← hp, block_length]
  unfold Deserialize
  by_cases h1 : p.length < sizeof_size_t
  · rw [if_pos h1]
  · rw [if_neg h1]
    have htake : p.take sizeof_size_t = toBytes sizeof_size_t v.length := by
      have h := congrArg (List.take sizeof_size_t) hp
      rw [block, List.take_left' hl, List.take_append_of_le_length (by omega)] at h
      exact h.symm
    simp only [htake, hsz]
    have h2 : (p.drop sizeof_size_t).length < v.length * w := by
      simp only [List.length_drop]; omega
    rw [if_pos h2]

/-- A successful decode read a block from the front of the input. -/
theorem Deserialize_some (w : Nat) (bytes : List Nat) (c : Nat) (v rest : List Nat) (c1 : Nat)
    (hb : ∀ b ∈ bytes, b < 256) (h : Deserialize w bytes c = some (v, rest, c1)) :
    bytes = block w v ++ rest ∧ v.length < 2 ^ 64 ∧ (∀ x ∈ v, x < 256 ^ w) ∧
      c1 = (c + (block w v).length) % 2 ^ 64 := by
  unfold Deserialize at h
  by_cases h1 : bytes.length < sizeof_size_t
  · rw [if_pos h1] at h; exact absurd h (by simp)
  · rw [if_neg h1] at h
    simp only at h
    by_cases h2 : (bytes.drop sizeof_size_t).length <
        ofBytes (bytes.take sizeof_size_t) * w
    · rw [if_pos h2] at h; exact absurd h (by simp)
    · rw [if_neg h2] at h
      simp only [Option.some.injEq, Prod.mk.injEq] at h
      obtain ⟨hv, hrest, hc⟩ := h
      have htl : (bytes.take sizeof_size_t).length = sizeof_size_t := by
        simp only [List.length_take]; omega
      have hbt : ∀ b ∈ bytes.take sizeof_size_t, b < 256 :=
        fun b hb1 => hb b (List.mem_of_mem_take hb1)
      have hbd : ∀ b ∈ bytes.drop sizeof_size_t, b < 256 :=
        fun b hb1 => hb b (List.mem_of_mem_drop hb1)
      have hsize : ofBytes (bytes.take sizeof_size_t) < 2 ^ 64 := by
        have := ofBytes_lt _ hbt
        rw [htl] at this
        simpa [sizeof_size_t] using this
      have hvl : v.length = ofBytes (bytes.take sizeof_size_t) := by
        rw [← hv, readElems_length]
      have hpre : toBytes sizeof_size_t v.length = bytes.take sizeof_size_t := by
        rw [hvl]
        have := toBytes_ofBytes _ hbt
        rwa [htl] at this
      have hbody : writeElems w v =
          (bytes.drop sizeof_size_t).take (ofBytes (bytes.take sizeof_size_t) * w) := by
        rw [← hv]
        exact writeElems_readElems w _ _ hbd (by omega)
      refine ⟨?_, by omega, ?_, ?_⟩
      · rw [block, hpre, hbody, ← hrest, List.append_assoc, List.take_append_drop,
          List.take_append_drop]
      · rw [← hv]
        exact readElems_lt w _ _ hbd (by omega)
      · rw [← hc, block_length, hvl]

end ov

/-! ## The header codec -/

namespace FragmentationHeader

theorem map_mod_of_lt (m : Nat) (v : List Nat) (hv : ∀ x ∈ v, x < m) :
    v.map (fun x => x % m) = v := by
  induction v with
  | nil => rfl
  | cons x xs ih =>
    simp only [List.map_cons]
    rw [Nat.mod_eq_of_lt (hv x (List.mem_cons_self _ _)),
      ih (fun y hy => hv y (List.mem_cons_of_mem _ hy))]

theorem flagByte_ne_zero (b : Bool) : (flagByte b != 0) = b := by
  cases b <;> rfl

/-- The output of `Serialize`, block by block. -/
theorem Serialize_blocks (H : FragmentationHeader) :
    H.Serialize =
      ov.block ov.sizeof_size_t H.fragmentation_offset ++
        (ov.block ov.sizeof_size_t H.fragmentation_length ++
          (ov.block 2 H.fragmentation_time_diff ++
            (ov.block 1 H.fragmentation_pl_type ++ [flagByte H.last_fragment_complete]))) := by
  simp [Serialize, ov.Serialize]

theorem Serialize_length (H : FragmentationHeader) :
    H.Serialize.length =
      (ov.block ov.sizeof_size_t H.fragmentation_offset).length +
        ((ov.block ov.sizeof_size_t H.fragmentation_length).length +
          ((ov.block 2 H.fragmentation_time_diff).length +
            ((ov.block 1 H.fragmentation_pl_type).length + 1))) := by
  rw [Serialize_blocks]; simp

/-- Decoding four blocks followed by at least one byte, into any header and
from any counter value. -/
theorem Deserialize_blocks (self : FragmentationHeader) (o l t p : List Nat) (f : Nat)
    (rest : List Nat) (c : Nat) (ho : o.length < 2 ^ 64) (hl : l.length < 2 ^ 64)
    (ht : t.length < 2 ^ 64) (hp : p.length < 2 ^ 64) :
    Deserialize self
        (ov.block ov.sizeof_size_t o ++ (ov.block ov.sizeof_size_t l ++
          (ov.block 2 t ++ (ov.block 1 p ++ f :: rest)))) c =
      (true,
        { fragmentation_offset := o.map (fun x => x % 256 ^ ov.sizeof_size_t)
          fragmentation_length := l.map (fun x => x % 256 ^ ov.sizeof_size_t)
          fragmentation_time_diff := t.map (fun x => x % 256 ^ 2)
          fragmentation_pl_type := p.map (fun x => x % 256 ^ 1)
          last_fragment_complete := (f != 0) },
        (c + ((ov.block ov.sizeof_size_t o).length + ((ov.block ov.sizeof_size_t l).length +
          ((ov.block 2 t).length + ((ov.block 1 p).length + 1))))) % 2 ^ 64) := by
  unfold Deserialize
  rw [ov.Deserialize_block _ _ _ _ ho]
  simp only
  rw [ov.Deserialize_block _ _ _ _ hl]
  simp only
  rw [ov.Deserialize_block _ _ _ _ ht]
  simp only
  rw [ov.Deserialize_block _ _ _ _ hp]
  simp only
  refine Prod.ext rfl (Prod.ext rfl ?_)
  simp only
  norm_num
  omega

/-- Decoding a serialized header that is followed by arbitrary bytes `T`, into
any header and from any counter value. -/
theorem Deserialize_Serialize_append (self H : FragmentationHeader) (T : List Nat) (c : Nat)
    (hwt : H.WellTyped) :
    Deserialize self (H.Serialize ++ T) c = (true, H, (c + H.Serialize.length) % 2 ^ 64) := by
  obtain ⟨ho, hl, ht, hp, hon, hln, htn, hpn⟩ := hwt
  have e1 := map_mod_of_lt (256 ^ ov.sizeof_size_t) H.fragmentation_offset
    (by simpa [ov.sizeof_size_t] using ho)
  have e2 := map_mod_of_lt (256 ^ ov.sizeof_size_t) H.fragmentation_length
    (by simpa [ov.sizeof_size_t] using hl)
  have e3 := map_mod_of_lt (256 ^ 2) H.fragmentation_time_diff (by simpa using ht)
  have e4 := map_mod_of_lt (256 ^ 1) H.fragmentation_pl_type (by simpa using hp)
  rw [Serialize_length, Serialize_blocks]
  simp only [List.append_assoc, List.singleton_append]
  rw [Deserialize_blocks self _ _ _ _ _ T c hon hln htn hpn, e1, e2, e3, e4, flagByte_ne_zero]

/-- One decoding step on a prefix `P` of a block followed by `R`: either the
block is cut short and the step fails, or the step reads the whole block and
the rest of `P` is a prefix of `R`. -/
theorem Deserialize_prefix_step (w : Nat) (v R P Q : List Nat) (c : Nat)
    (hv : v.length < 2 ^ 64) (h : ov.block w v ++ R = P ++ Q) :
    ov.Deserialize w P c = none ∨
      ∃ P1, R = P1 ++ Q ∧ ov.Deserialize w P c =
        some (v.map (fun x => x % 256 ^ w), P1, (c + (ov.block w v).length) % 2 ^ 64) := by
  rcases List.append_eq_append_iff.mp h with ⟨a, hP, hR⟩ | ⟨b, hB, hQ2⟩
  · right
    exact ⟨a, hR, by rw [hP, ov.Deserialize_block w v a c hv]⟩
  · by_cases hb : b = []
    · right
      subst hb
      refine ⟨[], by simpa using hQ2.symm, ?_⟩
      have hP : P = ov.block w v ++ [] := by simpa using hB.symm
      rw [hP, ov.Deserialize_block w v [] c hv]
    · left
      exact ov.Deserialize_strict_prefix w v P b c hv hb hB

end FragmentationHeader


/-! ## The registry container -/

theorem find?_insert_or_assign (k : String) (v : Option FileUserdata)
    (m : List (String × Option FileUserdata)) :
    (insert_or_assign k v m).find? (fun e => e.1 == k) = some (k, v) := by
  induction m with
  | nil => simp [insert_or_assign]
  | cons e es ih =>
    by_cases h : e.1 = k
    · simp [insert_or_assign, h]
    · simp [insert_or_assign, h, List.find?_cons, ih]

theorem length_insert_or_assign_twice (k : String) (v1 v2 : Option FileUserdata)
    (m : List (String × Option FileUserdata)) :
    (insert_or_assign k v2 (insert_or_assign k v1 m)).length =
      (insert_or_assign k v1 m).length := by
  induction m with
  | nil => simp [insert_or_assign]
  | cons e es ih =>
    by_cases h : e.1 = k
    · simp [insert_or_assign, h]
    · simp [insert_or_assign, h, ih]

theorem insert_or_assign_of_not_mem (k : String) (v : Option FileUserdata)
    (m : List (String × Option FileUserdata)) (hk : k ∉ m.map Prod.fst) :
    insert_or_assign k v m = m ++ [(k, v)] := by
  induction m with
  | nil => rfl
  | cons e es ih =>
    simp only [List.map_cons, List.mem_cons, not_or] at hk
    have h : ¬ e.1 = k := fun h => hk.1 h.symm
    simp [insert_or_assign, h, ih hk.2]

theorem SetAll_of_nodup (m kvs : List (String × Option FileUserdata))
    (hnd : ((m ++ kvs).map Prod.fst).Nodup) :
    (FileUserdataSets.mk m).SetAll kvs = FileUserdataSets.mk (m ++ kvs) := by
  induction kvs generalizing m with
  | nil => simp [FileUserdataSets.SetAll]
  | cons kv kvs ih =>
    have hk : kv.1 ∉ m.map Prod.fst := by
      rw [List.map_append, List.map_cons] at hnd
      have h := (List.nodup_append.mp hnd).2.2
      intro hmem
      exact h hmem (List.mem_cons_self _ _)
    have hnd2 : (((m ++ [kv]) ++ kvs).map Prod.fst).Nodup := by
      simpa [List.append_assoc] using hnd
    have step : (FileUserdataSets.mk m).SetAll (kv :: kvs) =
        (FileUserdataSets.mk (m ++ [kv])).SetAll kvs := by
      simp only [FileUserdataSets.SetAll, List.foldl_cons, FileUserdataSets.Set]
      rw [insert_or_assign_of_not_mem kv.1 kv.2 m hk]
    rw [step, ih (m ++ [kv]) hnd2, List.append_assoc, List.singleton_append]

theorem advance_begin (m : List (String × Option FileUserdata)) (n : Nat)
    (hn : n ≤ m.length) : advance m 0 n = .returns n := by
  unfold advance
  rw [Nat.zero_add, if_pos hn]

theorem GetAt_of_lt (r : FileUserdataSets) (i : Nat) (hi : i < r._userdata_sets.length) :
    r.GetAt i = .returns r._userdata_sets[i].2 := by
  unfold FileUserdataSets.GetAt
  rw [advance_begin _ _ (Nat.le_of_lt hi)]
  simp only
  rw [if_neg (Nat.ne_of_lt hi), List.get?_eq_get hi]
  rfl

theorem GetKeyAt_of_lt (r : FileUserdataSets) (i : Nat) (hi : i < r._userdata_sets.length) :
    r.GetKeyAt i = .returns (some r._userdata_sets[i].1) := by
  unfold FileUserdataSets.GetKeyAt
  rw [advance_begin _ _ (Nat.le_of_lt hi)]
  simp only
  rw [if_neg (Nat.ne_of_lt hi), List.get?_eq_get hi]
  rfl

theorem advance_past_end (m : List (String × Option FileUserdata)) (n : Nat)
    (hn : m.length < n) : advance m 0 n = .undefined := by
  unfold advance
  rw [Nat.zero_add, if_neg (Nat.not_le.mpr hn)]

theorem mem_insert_or_assign (k : String) (v : Option FileUserdata)
    (m : List (String × Option FileUserdata)) (e : String × Option FileUserdata)
    (he : e ∈ insert_or_assign k v m) : e = (k, v) ∨ e ∈ m := by
  induction m with
  | nil =>
    simp only [insert_or_assign, List.mem_singleton] at he
    exact Or.inl he
  | cons x xs ih =>
    by_cases h : x.1 = k
    · simp only [insert_or_assign, if_pos h, List.mem_cons] at he
      rcases he with he | he
      · exact Or.inl he
      · exact Or.inr (List.mem_cons_of_mem _ he)
    · simp only [insert_or_assign, if_neg h, List.mem_cons] at he
      rcases he with he | he
      · exact Or.inr (by rw [he]; exact List.mem_cons_self _ _)
      · rcases ih he with h1 | h1
        · exact Or.inl h1
        · exact Or.inr (List.mem_cons_of_mem _ h1)

theorem mem_SetAll (r : FileUserdataSets) (kvs : List (String × Option FileUserdata))
    (e : String × Option FileUserdata) (he : e ∈ (r.SetAll kvs)._userdata_sets) :
    e ∈ r._userdata_sets ∨ e ∈ kvs := by
  induction kvs generalizing r with
  | nil => exact Or.inl (by simpa [FileUserdataSets.SetAll] using he)
  | cons kv kvs ih =>
    have step : r.SetAll (kv :: kvs) = (r.Set kv.1 kv.2).2.SetAll kvs := by
      simp [FileUserdataSets.SetAll]
    rw [step] at he
    rcases ih _ he with h1 | h1
    · rcases mem_insert_or_assign kv.1 kv.2 r._userdata_sets e h1 with h2 | h2
      · exact Or.inr (by rw [h2]; exact List.mem_cons_self _ _)
      · exact Or.inl h2
    · exact Or.inr (List.mem_cons_of_mem _ h1)

/-- The loop of `GetBySessionId` over entries that are all non-null: either it
stops at the first entry whose session id matches, or no entry matches and it
returns the null pointer. -/
theorem scanSessionId_first_match (s : Nat) (m : List (String × Option FileUserdata))
    (hnn : ∀ e ∈ m, e.2 ≠ none) :
    (∃ i e u, m.get? i = some e ∧ e.2 = some u ∧ u.GetSessionId = s ∧
        (∀ j e1 u1, j < i → m.get? j = some e1 → e1.2 = some u1 → u1.GetSessionId ≠ s) ∧
        FileUserdataSets.scanSessionId s m = .returns (some u)) ∨
      ((∀ e ∈ m, ∀ u, e.2 = some u → u.GetSessionId ≠ s) ∧
        FileUserdataSets.scanSessionId s m = .returns none) := by
  induction m with
  | nil => exact Or.inr ⟨by simp, rfl⟩
  | cons x xs ih =>
    have hx : x.2 ≠ none := hnn x (List.mem_cons_self _ _)
    obtain ⟨u, hu⟩ := Option.ne_none_iff_exists'.mp hx
    by_cases hs : u.GetSessionId = s
    · left
      refine ⟨0, x, u, rfl, hu, hs, ?_, ?_⟩
      · intro j e1 u1 hj
        exact absurd hj (Nat.not_lt_zero _)
      · simp [FileUserdataSets.scanSessionId, hu, hs]
    · have hscan : FileUserdataSets.scanSessionId s (x :: xs) =
          FileUserdataSets.scanSessionId s xs := by
        simp [FileUserdataSets.scanSessionId, hu, hs]
      rcases ih (fun e he => hnn e (List.mem_cons_of_mem _ he)) with
        ⟨i, e, u2, hget, he, hs2, hbefore, hres⟩ | ⟨hno, hres⟩
      · left
        refine ⟨i + 1, e, u2, by simpa using hget, he, hs2, ?_, by rw [hscan, hres]⟩
        intro j e1 u1 hj hg h1
        cases j with
        | zero =>
          simp only [List.get?_cons_zero, Option.some.injEq] at hg
          subst hg
          rw [hu] at h1
          cases h1
          exact hs
        | succ j =>
          exact hbefore j e1 u1 (Nat.lt_of_succ_lt_succ hj) (by simpa using hg) h1
      · right
        refine ⟨?_, by rw [hscan, hres]⟩
        intro e he u1 h1
        rcases List.mem_cons.mp he with rfl | he
        · rw [hu] at h1
          cases h1
          exact hs
        · exact hno e he u1 h1

theorem length_insert_or_assign_of_mem (k : String) (v : Option FileUserdata)
    (m : List (String × Option FileUserdata)) (hk : k ∈ m.map Prod.fst) :
    (insert_or_assign k v m).length = m.length := by
  induction m with
  | nil => simp at hk
  | cons x xs ih =>
    by_cases h : x.1 = k
    · simp [insert_or_assign, h]
    · have hk2 : k ∈ xs.map Prod.fst := by
        simp only [List.map_cons, List.mem_cons] at hk
        rcases hk with hk | hk
        · exact absurd hk.symm h
        · exact hk
      simp [insert_or_assign, h, ih hk2]

/-- Assigning to `k` leaves every entry under another key where it is. -/
theorem get?_insert_or_assign_of_ne (k : String) (v : Option FileUserdata)
    (m : List (String × Option FileUserdata)) (i : Nat) (e : String × Option FileUserdata)
    (hget : m.get? i = some e) (hne : e.1 ≠ k) :
    (insert_or_assign k v m).get? i = some e := by
  induction m generalizing i with
  | nil => simp at hget
  | cons x xs ih =>
    cases i with
    | zero =>
      simp only [List.get?_cons_zero, Option.some.injEq] at hget
      subst hget
      simp [insert_or_assign, hne]
    | succ i =>
      simp only [List.get?_cons_succ] at hget
      by_cases h : x.1 = k
      · simp only [insert_or_assign, if_pos h, List.get?_cons_succ]
        exact hget
      · simp only [insert_or_assign, if_neg h, List.get?_cons_succ]
        exact ih i hget

/-- Assigning to `k` replaces the value of the entry under `k` in place. -/
theorem get?_insert_or_assign_of_eq (k : String) (v : Option FileUserdata)
    (m : List (String × Option FileUserdata)) (i : Nat) (e : String × Option FileUserdata)
    (hnd : (m.map Prod.fst).Nodup) (hget : m.get? i = some e) (heq : e.1 = k) :
    (insert_or_assign k v m).get? i = some (k, v) := by
  induction m generalizing i with
  | nil => simp at hget
  | cons x xs ih =>
    simp only [List.map_cons, List.nodup_cons] at hnd
    cases i with
    | zero =>
      simp only [List.get?_cons_zero, Option.some.injEq] at hget
      subst hget
      simp [insert_or_assign, heq]
    | succ i =>
      simp only [List.get?_cons_succ] at hget
      have hmem : e ∈ xs := List.get?_mem hget
      have h : ¬ x.1 = k := by
        intro hx
        apply hnd.1
        rw [hx, ← heq]
        exact List.mem_map_of_mem Prod.fst hmem
      simp only [insert_or_assign, if_neg h, List.get?_cons_succ]
      exact ih i hnd.2 hget

/-! ## Claims about the fragmentation header -/

/-- C1 (round trip).  For every header `H` whose elements fit their C++ types and
whose serialized form fits a buffer (its length is a `size_t`), in particular for
every such header with as many offsets as lengths: `Deserialize` on the bytes
`Serialize(H)`, into a freshly constructed header and with `bytes_consumed = 0`,
returns `true`, leaves the target header equal to `H` (as a value and under
`operator==`), and sets `bytes_consumed` to exactly the length of `Serialize(H)`. -/
theorem FragmentationHeader.roundtrip (H : FragmentationHeader) (hwt : H.WellTyped)
    (hfit : H.Serialize.length < 2 ^ 64) :
    FragmentationHeader.Deserialize {} H.Serialize 0 = (true, H, H.Serialize.length) ∧
      FragmentationHeader.eq (FragmentationHeader.Deserialize {} H.Serialize 0).2.1 H = true := by
  have h := FragmentationHeader.Deserialize_Serialize_append {} H [] 0 hwt
  rw [List.append_nil, Nat.zero_add, Nat.mod_eq_of_lt hfit] at h
  refine ⟨h, ?_⟩
  rw [h]
  simp [FragmentationHeader.eq]

/-- The scenario of C1: offsets `[0,100,250]`, lengths `[100,150,80]`, deltas
`[0,33,66]`, payload types `[96,96,96]`, flag `true`; the header decoded from its
serialized form is the same header and `GetCount()` is 3 afterwards. -/
theorem FragmentationHeader.roundtrip_witness :
    (FragmentationHeader.mk [0, 100, 250] [100, 150, 80] [0, 33, 66] [96, 96, 96] true).WellTyped ∧
    (FragmentationHeader.mk [0, 100, 250] [100, 150, 80] [0, 33, 66] [96, 96, 96]
      true).Serialize.length = 90 ∧
    (FragmentationHeader.Deserialize {}
        (FragmentationHeader.mk [0, 100, 250] [100, 150, 80] [0, 33, 66] [96, 96, 96]
          true).Serialize 0 =
      (true, FragmentationHeader.mk [0, 100, 250] [100, 150, 80] [0, 33, 66] [96, 96, 96] true,
        (FragmentationHeader.mk [0, 100, 250] [100, 150, 80] [0, 33, 66] [96, 96, 96]
          true).Serialize.length) ∧
      FragmentationHeader.eq (FragmentationHeader.Deserialize {}
        (FragmentationHeader.mk [0, 100, 250] [100, 150, 80] [0, 33, 66] [96, 96, 96]
          true).Serialize 0).2.1
        (FragmentationHeader.mk [0, 100, 250] [100, 150, 80] [0, 33, 66] [96, 96, 96] true) =
        true) ∧
    (FragmentationHeader.Deserialize {}
        (FragmentationHeader.mk [0, 100, 250] [100, 150, 80] [0, 33, 66] [96, 96, 96]
          true).Serialize 0).2.1.GetCount = 3 :=
  ⟨by decide, by decide,
    FragmentationHeader.roundtrip
      (FragmentationHeader.mk [0, 100, 250] [100, 150, 80] [0, 33, 66] [96, 96, 96] true)
      (by decide) (by decide),
    by decide⟩

/-- C2 (truncation failure).  For every header `H` (elements and sizes fitting
their C++ types) and every strict prefix `P` of `Serialize(H)`, of any length
from 0 up to one byte short, `Deserialize` on `P` returns `false`, whatever the
target header and the counter were. -/
theorem FragmentationHeader.truncation_fails (self H : FragmentationHeader) (P : List Nat)
    (c : Nat) (hwt : H.WellTyped) (hpre : P <+: H.Serialize)
    (hlt : P.length < H.Serialize.length) :
    (FragmentationHeader.Deserialize self P c).1 = false := by
  obtain ⟨_, _, _, _, hon, hln, htn, hpn⟩ := hwt
  obtain ⟨Q, hPQ⟩ := hpre
  have hQ : Q ≠ [] := by
    rintro rfl
    rw [List.append_nil] at hPQ
    rw [hPQ] at hlt
    exact Nat.lt_irrefl _ hlt
  rw [FragmentationHeader.Serialize_blocks] at hPQ
  unfold FragmentationHeader.Deserialize
  rcases FragmentationHeader.Deserialize_prefix_step _ _ _ P Q c hon hPQ.symm with
    h1 | ⟨P1, hR1, h1⟩
  · rw [h1]
  rw [h1]
  simp only
  rcases FragmentationHeader.Deserialize_prefix_step _ _ _ P1 Q _ hln hR1 with
    h2 | ⟨P2, hR2, h2⟩
  · rw [h2]
  rw [h2]
  simp only
  rcases FragmentationHeader.Deserialize_prefix_step _ _ _ P2 Q _ htn hR2 with
    h3 | ⟨P3, hR3, h3⟩
  · rw [h3]
  rw [h3]
  simp only
  rcases FragmentationHeader.Deserialize_prefix_step _ _ _ P3 Q _ hpn hR3 with
    h4 | ⟨P4, hR4, h4⟩
  · rw [h4]
  rw [h4]
  simp only
  have hP4 : P4 = [] := by
    cases P4 with
    | nil => rfl
    | cons x xs =>
      have hlen := congrArg List.length hR4
      have hq := List.length_pos.mpr hQ
      rw [List.length_singleton, List.length_append, List.length_cons] at hlen
      omega
  rw [hP4]

/-- The serialized scenario header cut one byte short (the flag byte is missing),
and cut in the middle of its second block, is refused. -/
theorem FragmentationHeader.truncation_fails_witness :
    (FragmentationHeader.Deserialize {}
      ((FragmentationHeader.mk [0, 100, 250] [100, 150, 80] [0, 33, 66] [96, 96, 96]
        true).Serialize.take 89) 0).1 = false ∧
    (FragmentationHeader.Deserialize {}
      ((FragmentationHeader.mk [0, 100, 250] [100, 150, 80] [0, 33, 66] [96, 96, 96]
        true).Serialize.take 40) 0).1 = false :=
  ⟨FragmentationHeader.truncation_fails {}
      (FragmentationHeader.mk [0, 100, 250] [100, 150, 80] [0, 33, 66] [96, 96, 96] true)
      _ 0 (by decide) (List.take_prefix _ _) (by decide),
    FragmentationHeader.truncation_fails {}
      (FragmentationHeader.mk [0, 100, 250] [100, 150, 80] [0, 33, 66] [96, 96, 96] true)
      _ 0 (by decide) (List.take_prefix _ _) (by decide)⟩

/-- C3 (success exactly on well-formed input).  For every byte sequence `D`,
every prior header state and every counter value, `Deserialize(D)` returns `true`
if and only if `D` is four consecutive blocks (offsets, lengths, timestamp deltas,
payload types, in that order, each starting where the previous one ended) followed
by at least one further byte; in every other case it returns `false`. -/
theorem FragmentationHeader.Deserialize_true_iff (self : FragmentationHeader) (D : List Nat)
    (c : Nat) (hD : ∀ b ∈ D, b < 256) :
    (FragmentationHeader.Deserialize self D c).1 = true ↔
      ∃ o l t p f rest, o.length < 2 ^ 64 ∧ l.length < 2 ^ 64 ∧ t.length < 2 ^ 64 ∧
        p.length < 2 ^ 64 ∧
        D = ov.block ov.sizeof_size_t o ++ (ov.block ov.sizeof_size_t l ++
          (ov.block 2 t ++ (ov.block 1 p ++ f :: rest))) := by
  constructor
  · intro h
    unfold FragmentationHeader.Deserialize at h
    cases h1 : ov.Deserialize ov.sizeof_size_t D c with
    | none => rw [h1] at h; simp at h
    | some r1 =>
      obtain ⟨v1, b1, c1⟩ := r1
      rw [h1] at h
      simp only at h
      obtain ⟨e1, n1, -, -⟩ := ov.Deserialize_some _ _ _ _ _ _ hD h1
      have hb1 : ∀ b ∈ b1, b < 256 :=
        fun b hb => hD b (by rw [e1]; exact List.mem_append_right _ hb)
      cases h2 : ov.Deserialize ov.sizeof_size_t b1 c1 with
      | none => rw [h2] at h; simp at h
      | some r2 =>
        obtain ⟨v2, b2, c2⟩ := r2
        rw [h2] at h
        simp only at h
        obtain ⟨e2, n2, -, -⟩ := ov.Deserialize_some _ _ _ _ _ _ hb1 h2
        have hb2 : ∀ b ∈ b2, b < 256 :=
          fun b hb => hb1 b (by rw [e2]; exact List.mem_append_right _ hb)
        cases h3 : ov.Deserialize 2 b2 c2 with
        | none => rw [h3] at h; simp at h
        | some r3 =>
          obtain ⟨v3, b3, c3⟩ := r3
          rw [h3] at h
          simp only at h
          obtain ⟨e3, n3, -, -⟩ := ov.Deserialize_some _ _ _ _ _ _ hb2 h3
          have hb3 : ∀ b ∈ b3, b < 256 :=
            fun b hb => hb2 b (by rw [e3]; exact List.mem_append_right _ hb)
          cases h4 : ov.Deserialize 1 b3 c3 with
          | none => rw [h4] at h; simp at h
          | some r4 =>
            obtain ⟨v4, b4, c4⟩ := r4
            rw [h4] at h
            simp only at h
            obtain ⟨e4, n4, -, -⟩ := ov.Deserialize_some _ _ _ _ _ _ hb3 h4
            cases b4 with
            | nil => simp at h
            | cons f rest =>
              refine ⟨v1, v2, v3, v4, f, rest, n1, n2, n3, n4, ?_⟩
              rw [e1, e2, e3, e4]
  · rintro ⟨o, l, t, p, f, rest, ho, hl, ht, hp, rfl⟩
    rw [FragmentationHeader.Deserialize_blocks self o l t p f rest c ho hl ht hp]

/-- The scenario header followed by two payload bytes is accepted, by C3, because
it is four blocks and a further byte. -/
theorem FragmentationHeader.Deserialize_true_iff_witness :
    (∀ b ∈ (FragmentationHeader.mk [0, 100, 250] [100, 150, 80] [0, 33, 66] [96, 96, 96]
        true).Serialize ++ [7, 9], b < 256) ∧
    (FragmentationHeader.Deserialize {}
      ((FragmentationHeader.mk [0, 100, 250] [100, 150, 80] [0, 33, 66] [96, 96, 96]
        true).Serialize ++ [7, 9]) 0).1 = true ∧
    (FragmentationHeader.Deserialize {} [3, 0, 0, 0, 0, 0, 0, 0, 1, 2] 0).1 = false :=
  ⟨by decide,
    (FragmentationHeader.Deserialize_true_iff {}
      ((FragmentationHeader.mk [0, 100, 250] [100, 150, 80] [0, 33, 66] [96, 96, 96]
        true).Serialize ++ [7, 9]) 0 (by decide)).mpr
      ⟨[0, 100, 250], [100, 150, 80], [0, 33, 66], [96, 96, 96], 1, [7, 9],
        by decide, by decide, by decide, by decide, by decide⟩,
    by decide⟩

/-- C4 (wire layout).  For every header `H`, `Serialize(H)` is the concatenation,
in this order, of what `ov::Serialize` appends for the offsets, the lengths, the
timestamp deltas and the payload types (each block holding the element count and
then the elements in their original order), followed by exactly one byte that is
0 when `last_fragment_complete` is false and 1 when it is true; so the output is
never empty and its last byte alone determines the flag. -/
theorem FragmentationHeader.wire_layout (H : FragmentationHeader) :
    H.Serialize =
        ov.Serialize [] ov.sizeof_size_t H.fragmentation_offset ++
          ov.Serialize [] ov.sizeof_size_t H.fragmentation_length ++
          ov.Serialize [] 2 H.fragmentation_time_diff ++
          ov.Serialize [] 1 H.fragmentation_pl_type ++
          [if H.last_fragment_complete then 1 else 0] ∧
      (∀ data w v, ov.Serialize data w v =
        data ++ (ov.toBytes ov.sizeof_size_t v.length ++ (v.map (ov.toBytes w)).flatten)) ∧
      H.Serialize ≠ [] ∧
      H.Serialize.getLast? = some (if H.last_fragment_complete then 1 else 0) ∧
      H.Serialize.getLast?.map (fun b => b != 0) = some H.last_fragment_complete := by
  have hw : ∀ w v, ov.writeElems w v = (v.map (ov.toBytes w)).flatten := by
    intro w v
    induction v with
    | nil => rfl
    | cons x xs ih => simp [ov.writeElems, ih]
  have hlast : H.Serialize.getLast? = some (if H.last_fragment_complete then 1 else 0) := by
    rw [FragmentationHeader.Serialize_blocks, ← List.append_assoc, ← List.append_assoc,
      ← List.append_assoc, List.getLast?_append]
    simp [FragmentationHeader.flagByte]
  refine ⟨?_, ?_, ?_, hlast, ?_⟩
  · simp [FragmentationHeader.Serialize, ov.Serialize, FragmentationHeader.flagByte]
  · intro data w v
    simp [ov.Serialize, ov.block, hw]
  · intro h
    rw [h] at hlast
    simp at hlast
  · rw [hlast]
    cases H.last_fragment_complete <;> rfl

/-- C5, as stated, fails: on the header with one offset and no length the
condition asserted on entry is false, so `GetCount()` does not return the minimum
of the two sizes whatever `OV_ASSERT2` does: where a violated assertion ends the
call, the call returns nothing. -/
theorem FragmentationHeader.GetCount_asserted_counterexample :
    (FragmentationHeader.mk [0] [] [] [] false).GetCount_asserted true = none ∧
      ¬ ∀ OV_ASSERT2_stops : Bool,
        (FragmentationHeader.mk [0] [] [] [] false).GetCount_asserted OV_ASSERT2_stops =
          some (min (FragmentationHeader.mk [0] [] [] [] false).fragmentation_offset.length
            (FragmentationHeader.mk [0] [] [] [] false).fragmentation_length.length) := by
  decide

/-- C5, amended.  For every header whose offset and length sequences have the same
size, which is the condition `GetCount` asserts on entry, `GetCount()` returns the
minimum of the two sizes, whatever a violated `OV_ASSERT2` would do.  On a header
whose two sizes differ it returns that minimum where a violated `OV_ASSERT2` lets
the call go on, and does not return where it ends the call.  Whether it returns,
and what, does not depend on the timestamp-delta sequence, the payload-type
sequence or the completion flag. -/
theorem FragmentationHeader.GetCount_asserted_eq_min (OV_ASSERT2_stops : Bool)
    (H : FragmentationHeader) :
    (H.fragmentation_offset.length = H.fragmentation_length.length →
        H.GetCount_asserted OV_ASSERT2_stops =
          some (min H.fragmentation_offset.length H.fragmentation_length.length)) ∧
      H.GetCount_asserted false =
        some (min H.fragmentation_offset.length H.fragmentation_length.length) ∧
      (H.fragmentation_offset.length ≠ H.fragmentation_length.length →
        H.GetCount_asserted true = none) ∧
      ∀ (time_diff pl_type : List Nat) (flag : Bool),
        ({ H with fragmentation_time_diff := time_diff, fragmentation_pl_type := pl_type,
                  last_fragment_complete := flag } :
            FragmentationHeader).GetCount_asserted OV_ASSERT2_stops =
          H.GetCount_asserted OV_ASSERT2_stops := by
  refine ⟨?_, ?_, ?_, fun _ _ _ => rfl⟩
  · intro h
    simp [FragmentationHeader.GetCount_asserted, FragmentationHeader.GetCount_OV_ASSERT2,
      FragmentationHeader.GetCount, h]
  · simp [FragmentationHeader.GetCount_asserted, FragmentationHeader.GetCount]
  · intro h
    simp [FragmentationHeader.GetCount_asserted, FragmentationHeader.GetCount_OV_ASSERT2, h]

/-- The amended C5 on a header with two offsets and two lengths, under an
assertion that ends the call when violated, and on a header with two offsets and
one length, under an assertion that lets the call go on. -/
theorem FragmentationHeader.GetCount_asserted_eq_min_witness :
    (FragmentationHeader.mk [0, 100] [100, 50] [0, 33] [96, 96] true).GetCount_asserted true =
        some 2 ∧
      (FragmentationHeader.mk [0, 100] [100] [] [] false).GetCount_asserted false = some 1 :=
  ⟨(FragmentationHeader.GetCount_asserted_eq_min true
      (FragmentationHeader.mk [0, 100] [100, 50] [0, 33] [96, 96] true)).1 (by decide),
    (FragmentationHeader.GetCount_asserted_eq_min false
      (FragmentationHeader.mk [0, 100] [100] [] [] false)).2.1⟩

/-- C6, as stated, fails: a header with one offset and no length has sequences of
different sizes, and the condition `GetCount` asserts on entry is false for it. -/
theorem FragmentationHeader.GetCount_assertion_counterexample :
    (FragmentationHeader.mk [0] [] [] [] false).fragmentation_offset.length ≠
        (FragmentationHeader.mk [0] [] [] [] false).fragmentation_length.length ∧
      (FragmentationHeader.mk [0] [] [] [] false).GetCount_OV_ASSERT2 = false ∧
      (FragmentationHeader.mk [0] [] [] [] false).GetCount = 0 := by
  decide

/-- C6, amended.  The condition `GetCount` asserts on entry holds exactly when the
offset and length sequences have the same size, so it is violated on every header
whose two sizes differ; on a header whose sizes agree the assertion holds and
`GetCount()` is that common size, and in all cases the value computed after the
assertion is the minimum of the two sizes. -/
theorem FragmentationHeader.GetCount_assertion_iff (H : FragmentationHeader) :
    (H.GetCount_OV_ASSERT2 = true ↔
        H.fragmentation_offset.length = H.fragmentation_length.length) ∧
      (H.fragmentation_offset.length ≠ H.fragmentation_length.length →
        H.GetCount_OV_ASSERT2 = false) ∧
      (H.fragmentation_offset.length = H.fragmentation_length.length →
        H.GetCount_OV_ASSERT2 = true ∧ H.GetCount = H.fragmentation_offset.length) ∧
      H.GetCount = min H.fragmentation_offset.length H.fragmentation_length.length := by
  refine ⟨by simp [FragmentationHeader.GetCount_OV_ASSERT2], ?_, ?_, rfl⟩
  · intro h
    simp [FragmentationHeader.GetCount_OV_ASSERT2, h]
  · intro h
    simp [FragmentationHeader.GetCount_OV_ASSERT2, FragmentationHeader.GetCount, h]

/-- The amended C6 on a header whose sizes agree and on one whose sizes differ. -/
theorem FragmentationHeader.GetCount_assertion_iff_witness :
    ((FragmentationHeader.mk [0, 100] [100, 50] [] [] false).GetCount_OV_ASSERT2 = true ∧
        (FragmentationHeader.mk [0, 100] [100, 50] [] [] false).GetCount = 2) ∧
      (FragmentationHeader.mk [0, 100] [100] [] [] false).GetCount_OV_ASSERT2 = false :=
  ⟨(FragmentationHeader.GetCount_assertion_iff
      (FragmentationHeader.mk [0, 100] [100, 50] [] [] false)).2.2.1 (by decide),
    (FragmentationHeader.GetCount_assertion_iff
      (FragmentationHeader.mk [0, 100] [100] [] [] false)).2.1 (by decide)⟩

/-- C7 (structural equality).  For all headers `A` and `B`, `A == B` holds if and
only if the four sequences are equal element by element and the flags are equal,
that is, if and only if `A` and `B` are the same value; `A != B` is exactly the
negation of `A == B`.  In particular headers that differ in a timestamp delta, a
payload type or the flag compare unequal, whatever their offsets and lengths. -/
theorem FragmentationHeader.eq_structural (A B : FragmentationHeader) :
    (A.eq B = true ↔
        A.fragmentation_offset = B.fragmentation_offset ∧
        A.fragmentation_length = B.fragmentation_length ∧
        A.fragmentation_time_diff = B.fragmentation_time_diff ∧
        A.fragmentation_pl_type = B.fragmentation_pl_type ∧
        A.last_fragment_complete = B.last_fragment_complete) ∧
      (A.eq B = true ↔ A = B) ∧
      A.ne B = !(A.eq B) ∧
      (A.fragmentation_time_diff ≠ B.fragmentation_time_diff → A.eq B = false ∧ A.ne B = true) ∧
      (A.fragmentation_pl_type ≠ B.fragmentation_pl_type → A.eq B = false ∧ A.ne B = true) ∧
      (A.last_fragment_complete ≠ B.last_fragment_complete →
        A.eq B = false ∧ A.ne B = true) := by
  have h1 : A.eq B = true ↔
      A.fragmentation_offset = B.fragmentation_offset ∧
      A.fragmentation_length = B.fragmentation_length ∧
      A.fragmentation_time_diff = B.fragmentation_time_diff ∧
      A.fragmentation_pl_type = B.fragmentation_pl_type ∧
      A.last_fragment_complete = B.last_fragment_complete := by
    simp [FragmentationHeader.eq, and_assoc]
  have h2 : B.eq A = A.eq B := by
    rw [Bool.eq_iff_iff]
    simp only [FragmentationHeader.eq, Bool.and_eq_true, beq_iff_eq]
    constructor <;> rintro ⟨⟨⟨⟨a, b⟩, c⟩, d⟩, e⟩ <;> exact ⟨⟨⟨⟨a.symm, b.symm⟩, c.symm⟩, d.symm⟩, e.symm⟩
  have h3 : A.ne B = !(A.eq B) := by rw [FragmentationHeader.ne, h2]
  have h4 : ∀ {P : Prop}, (A.eq B = true → P) → ¬ P → A.eq B = false ∧ A.ne B = true := by
    intro P hP hn
    have : A.eq B = false := by
      cases h : A.eq B with
      | false => rfl
      | true => exact absurd (hP h) hn
    exact ⟨this, by rw [h3, this]; rfl⟩
  refine ⟨h1, ?_, h3, ?_, ?_, ?_⟩
  · rw [h1]
    constructor
    · rintro ⟨a, b, c, d, e⟩
      cases A; cases B
      simp only at a b c d e
      subst a b c d e
      rfl
    · rintro rfl
      exact ⟨rfl, rfl, rfl, rfl, rfl⟩
  · exact fun hne => h4 (fun h => (h1.mp h).2.2.1) hne
  · exact fun hne => h4 (fun h => (h1.mp h).2.2.2.1) hne
  · exact fun hne => h4 (fun h => (h1.mp h).2.2.2.2) hne

/-- Two headers that agree on offsets and lengths and differ in one timestamp
delta compare unequal. -/
theorem FragmentationHeader.eq_structural_witness :
    (FragmentationHeader.mk [0, 100] [100, 50] [0, 33] [96, 96] true).eq
        (FragmentationHeader.mk [0, 100] [100, 50] [0, 34] [96, 96] true) = false ∧
      (FragmentationHeader.mk [0, 100] [100, 50] [0, 33] [96, 96] true).ne
        (FragmentationHeader.mk [0, 100] [100, 50] [0, 34] [96, 96] true) = true :=
  (FragmentationHeader.eq_structural
    (FragmentationHeader.mk [0, 100] [100, 50] [0, 33] [96, 96] true)
    (FragmentationHeader.mk [0, 100] [100, 50] [0, 34] [96, 96] true)).2.2.2.1 (by decide)

/-- C8 (emptiness).  For every header `H`, after `Clear()` all four sequences are
empty and the flag is false, so the cleared header is the freshly constructed one
(also under `operator==`), `IsEmpty()` is true and `GetCount()` is 0; a freshly
constructed header is empty; and `IsEmpty()` is true exactly when both the offset
and the length sequence are empty. -/
theorem FragmentationHeader.Clear_empty (H : FragmentationHeader) :
    H.Clear.fragmentation_offset = [] ∧ H.Clear.fragmentation_length = [] ∧
      H.Clear.fragmentation_time_diff = [] ∧ H.Clear.fragmentation_pl_type = [] ∧
      H.Clear.last_fragment_complete = false ∧
      H.Clear = {} ∧ H.Clear.eq {} = true ∧
      H.Clear.IsEmpty = true ∧ H.Clear.GetCount = 0 ∧
      H.Clear.GetCount_OV_ASSERT2 = true ∧
      ({} : FragmentationHeader).IsEmpty = true ∧
      (H.IsEmpty = true ↔ H.fragmentation_offset = [] ∧ H.fragmentation_length = []) := by
  refine ⟨rfl, rfl, rfl, rfl, rfl, rfl, rfl, rfl, rfl, rfl, rfl, ?_⟩
  simp [FragmentationHeader.IsEmpty, List.isEmpty_iff]

/-! ## Claims about the userdata registry -/

/-- C9 (registry uniqueness).  For every registry state, key `k` and values `v1`,
`v2`: both `Set(k, v1)` and the following `Set(k, v2)` return `true`; afterwards
`GetByKey(k)` returns `v2`, and `GetCount()` is what it was right after the first
`Set`: the second `Set` adds no entry. -/
theorem FileUserdataSets.Set_twice (r : FileUserdataSets) (k : String)
    (v1 v2 : Option FileUserdata) :
    (r.Set k v1).1 = true ∧ ((r.Set k v1).2.Set k v2).1 = true ∧
      ((r.Set k v1).2.Set k v2).2.GetByKey k = v2 ∧
      ((r.Set k v1).2.Set k v2).2.GetCount = (r.Set k v1).2.GetCount ∧
      ((r.Set k v1).2.Set k v2).2._userdata_sets.length =
        (r.Set k v1).2._userdata_sets.length := by
  refine ⟨rfl, rfl, ?_, ?_, ?_⟩
  · simp only [FileUserdataSets.GetByKey, FileUserdataSets.Set, find?_insert_or_assign]
  · simp only [FileUserdataSets.GetCount, FileUserdataSets.Set, length_insert_or_assign_twice]
  · simp only [FileUserdataSets.Set, length_insert_or_assign_twice]

/-- C10 (positional lookup follows insertion order).  For every list of pairwise
distinct keys `k0..k(n-1)` set in that order, with values `v0..v(n-1)`, into an
empty registry, `n` being below `2^32` (counts and indices are `uint32_t`):
`GetCount() = n` and for every index `i < n`, `GetKeyAt(i) = ki` and
`GetAt(i) = vi`. -/
theorem FileUserdataSets.positional_lookup (kvs : List (String × Option FileUserdata))
    (hnd : (kvs.map Prod.fst).Nodup) (hn : kvs.length < 2 ^ 32) :
    (({} : FileUserdataSets).SetAll kvs).GetCount = kvs.length ∧
      ∀ (i : Nat) (hi : i < kvs.length),
        (({} : FileUserdataSets).SetAll kvs).GetKeyAt i = .returns (some kvs[i].1) ∧
        (({} : FileUserdataSets).SetAll kvs).GetAt i = .returns kvs[i].2 := by
  have h : ({} : FileUserdataSets).SetAll kvs = FileUserdataSets.mk kvs := by
    have := SetAll_of_nodup [] kvs (by simpa using hnd)
    simpa using this
  rw [h]
  refine ⟨Nat.mod_eq_of_lt hn, ?_⟩
  intro i hi
  exact ⟨GetKeyAt_of_lt (FileUserdataSets.mk kvs) i hi, GetAt_of_lt (FileUserdataSets.mk kvs) i hi⟩

/-- The scenario of C10: keys "s1", "s2", "s3" set in that order, the value under
"s2" carrying session id 42: `GetKeyAt(1)` is "s2", `GetAt(1)` is the value of
"s2", and `GetBySessionId(42)` returns that same value. -/
theorem FileUserdataSets.positional_lookup_witness :
    (({} : FileUserdataSets).SetAll
        [("s1", some ⟨7, 1⟩), ("s2", some ⟨42, 2⟩), ("s3", some ⟨9, 3⟩)]).GetCount = 3 ∧
      (({} : FileUserdataSets).SetAll
        [("s1", some ⟨7, 1⟩), ("s2", some ⟨42, 2⟩), ("s3", some ⟨9, 3⟩)]).GetKeyAt 1 =
          .returns (some "s2") ∧
      (({} : FileUserdataSets).SetAll
        [("s1", some ⟨7, 1⟩), ("s2", some ⟨42, 2⟩), ("s3", some ⟨9, 3⟩)]).GetAt 1 =
          .returns (some ⟨42, 2⟩) ∧
      (({} : FileUserdataSets).SetAll
        [("s1", some ⟨7, 1⟩), ("s2", some ⟨42, 2⟩), ("s3", some ⟨9, 3⟩)]).GetBySessionId 42 =
          .returns (some ⟨42, 2⟩) ∧
      (({} : FileUserdataSets).SetAll
        [("s1", some ⟨7, 1⟩), ("s2", some ⟨42, 2⟩), ("s3", some ⟨9, 3⟩)]).GetByKey "s2" =
          some ⟨42, 2⟩ :=
  ⟨(FileUserdataSets.positional_lookup
      [("s1", some ⟨7, 1⟩), ("s2", some ⟨42, 2⟩), ("s3", some ⟨9, 3⟩)]
      (by decide) (by decide)).1,
    ((FileUserdataSets.positional_lookup
      [("s1", some ⟨7, 1⟩), ("s2", some ⟨42, 2⟩), ("s3", some ⟨9, 3⟩)]
      (by decide) (by decide)).2 1 (by decide)).1,
    ((FileUserdataSets.positional_lookup
      [("s1", some ⟨7, 1⟩), ("s2", some ⟨42, 2⟩), ("s3", some ⟨9, 3⟩)]
      (by decide) (by decide)).2 1 (by decide)).2,
    by decide, by decide⟩

/-! ## Claims about the display names and the encoded access unit -/

/-- C13.  The documented display names are reproduced character for character:
`StringFromStreamSourceType(Rtmp)` is "Rtmp", `StringFromProviderType(RtspPull)`
is "RTSP Pull", `StringFromPublisherType(LlDash)` is "LLDASH",
`StringFromMediaCodecId(H264)` is "H264" and `StringFromMediaType(Video)` is
"Video". -/
theorem display_names_verbatim :
    StringFromStreamSourceType StreamSourceType.Rtmp = "Rtmp" ∧
      StringFromProviderType ProviderType.RtspPull = "RTSP Pull" ∧
      StringFromPublisherType PublisherType.LlDash = "LLDASH" ∧
      StringFromMediaCodecId MediaCodecId.H264 = "H264" ∧
      StringFromMediaType MediaType.Video = "Video" := by
  decide

/-- C14 at its failing input.  `StringFromMediaCodecId` maps `MediaCodecId::None`,
and every value without a name of its own, to "Unknwon", which is not the string
"Unknown"; the other four functions do return "Unknown" on their placeholders
(`ProviderType::Unknown`, `PublisherType::Unknown`,
`PublisherType::NumberOfPublishers`, `MediaType::Unknown`,
`StreamSourceType::Mpegts`) and on every value outside their handled cases. -/
theorem fallthrough_names :
    StringFromMediaCodecId MediaCodecId.None = "Unknwon" ∧
      StringFromMediaCodecId MediaCodecId.None ≠ "Unknown" ∧
      (∀ v : Int, StringFromMediaCodecId (MediaCodecId.other v) = "Unknwon") ∧
      StringFromProviderType ProviderType.Unknown = "Unknown" ∧
      StringFromPublisherType PublisherType.Unknown = "Unknown" ∧
      StringFromPublisherType PublisherType.NumberOfPublishers = "Unknown" ∧
      StringFromMediaType MediaType.Unknown = "Unknown" ∧
      (∀ v : Int, StringFromMediaType (MediaType.other v) = "Unknown") ∧
      (∀ t : StreamSourceType,
        t ∉ [StreamSourceType.Ovt, StreamSourceType.Rtmp, StreamSourceType.Rtsp,
          StreamSourceType.RtspPull, StreamSourceType.Transcoder] →
        StringFromStreamSourceType t = "Unknown") ∧
      (∀ t : ProviderType, t ∉ ProviderType.genuine → StringFromProviderType t = "Unknown") ∧
      (∀ t : PublisherType, t ∉ PublisherType.genuine →
        StringFromPublisherType t = "Unknown") := by
  refine ⟨by decide, by decide, fun _ => rfl, by decide, by decide, by decide, by decide,
    fun _ => rfl, ?_, ?_, ?_⟩
  · intro t h
    simp only [List.mem_cons, List.mem_singleton, List.not_mem_nil, or_false, not_or] at h
    simp [StringFromStreamSourceType, h]
  · intro t h
    simp only [ProviderType.genuine, List.mem_cons, List.mem_singleton, List.not_mem_nil,
      or_false, not_or] at h
    simp [StringFromProviderType, h]
  · intro t h
    simp only [PublisherType.genuine, List.mem_cons, List.mem_singleton, List.not_mem_nil,
      or_false, not_or] at h
    simp [StringFromPublisherType, h]

/-- C15, as stated, fails: the constructor accepts length 1 with size 0 and the
frame it produces has `_length` above `_size`. -/
theorem EncodedFrame.length_le_size_counterexample :
    ¬ ((EncodedFrame.EncodedFrame none 1 0)._length ≤
        (EncodedFrame.EncodedFrame none 1 0)._size) := by
  decide

/-- C15, amended.  The constructor `EncodedFrame(buffer, length, size)` stores its
arguments unchanged, `_buffer = buffer`, `_length = length` and `_size = size`,
and leaves the other members at their defaults; so the frame it produces
satisfies `_length <= _size` exactly when the caller passes `length <= size`. -/
theorem EncodedFrame.constructor_stores (buffer : Option (List Nat)) (length size : Nat) :
    (EncodedFrame.EncodedFrame buffer length size)._buffer = buffer ∧
      (EncodedFrame.EncodedFrame buffer length size)._length = length ∧
      (EncodedFrame.EncodedFrame buffer length size)._size = size ∧
      (EncodedFrame.EncodedFrame buffer length size)._encoded_width = 0 ∧
      (EncodedFrame.EncodedFrame buffer length size)._encoded_height = 0 ∧
      (EncodedFrame.EncodedFrame buffer length size)._time_stamp = 0 ∧
      (EncodedFrame.EncodedFrame buffer length size)._duration = 0 ∧
      (EncodedFrame.EncodedFrame buffer length size)._frame_type = FrameType.VideoFrameDelta ∧
      (EncodedFrame.EncodedFrame buffer length size)._complete_frame = false ∧
      ((EncodedFrame.EncodedFrame buffer length size)._length ≤
          (EncodedFrame.EncodedFrame buffer length size)._size ↔ length ≤ size) :=
  ⟨rfl, rfl, rfl, rfl, rfl, rfl, rfl, rfl, rfl, Iff.rfl⟩

/-- C20 at its failing input.  `StreamSourceType::Mpegts` is a declared enumerator
and `StringFromStreamSourceType` maps it to the fallback "Unknown": its `switch`
has no case for it.  Every other declared enumerator of `StreamSourceType`, and
every genuine enumerator of `ProviderType` and of `PublisherType`, has a name
that differs from "Unknown" and from the names of the other enumerators of its
enumeration. -/
theorem genuine_names :
    StreamSourceType.Mpegts ∈ StreamSourceType.enumerators ∧
      StringFromStreamSourceType StreamSourceType.Mpegts = "Unknown" ∧
      StringFromProviderType ProviderType.Mpegts = "MPEG-TS" ∧
      (∀ t ∈ StreamSourceType.enumerators, t ≠ StreamSourceType.Mpegts →
        StringFromStreamSourceType t ≠ "Unknown") ∧
      (StreamSourceType.enumerators.map StringFromStreamSourceType).Nodup ∧
      (∀ t ∈ ProviderType.genuine, StringFromProviderType t ≠ "Unknown") ∧
      (ProviderType.genuine.map StringFromProviderType).Nodup ∧
      (∀ t ∈ PublisherType.genuine, StringFromPublisherType t ≠ "Unknown") ∧
      (PublisherType.genuine.map StringFromPublisherType).Nodup := by
  decide

/-! ## Further claims about the userdata registry -/

/-- C11 at its failing input.  On the empty registry index 0 (the count) yields the
null pointer and the not-found key, but index 1 makes `std::advance` move the
iterator past `end()`, which is undefined; in general every index equal to the
number of entries yields the sentinels and every index above it moves the
iterator past `end()`, for `GetAt` and for `GetKeyAt`. -/
theorem FileUserdataSets.lookup_past_end :
    ({} : FileUserdataSets).GetCount = 0 ∧
      ({} : FileUserdataSets).GetAt 0 = .returns none ∧
      ({} : FileUserdataSets).GetKeyAt 0 = .returns none ∧
      ({} : FileUserdataSets).GetAt 1 = .undefined ∧
      ({} : FileUserdataSets).GetKeyAt 1 = .undefined ∧
      (∀ r : FileUserdataSets,
        r.GetAt r._userdata_sets.length = .returns none ∧
        r.GetKeyAt r._userdata_sets.length = .returns none) ∧
      (∀ (r : FileUserdataSets) (i : Nat), r._userdata_sets.length < i →
        r.GetAt i = .undefined ∧ r.GetKeyAt i = .undefined) := by
  refine ⟨by decide, by decide, by decide, by decide, by decide, ?_, ?_⟩
  · intro r
    constructor
    · unfold FileUserdataSets.GetAt
      rw [advance_begin _ _ (Nat.le_refl _)]
      simp
    · unfold FileUserdataSets.GetKeyAt
      rw [advance_begin _ _ (Nat.le_refl _)]
      simp
  · intro r i hi
    constructor
    · unfold FileUserdataSets.GetAt
      rw [advance_past_end _ _ hi]
    · unfold FileUserdataSets.GetKeyAt
      rw [advance_past_end _ _ hi]

/-- C12, as stated, fails: `Set` accepts the null pointer (it returns `true`), and
on the registry reached by `Set("a", nullptr)` from the empty one
`GetBySessionId(1)` calls `GetSessionId` through that null pointer. -/
theorem FileUserdataSets.GetBySessionId_null_counterexample :
    (({} : FileUserdataSets).Set "a" none).1 = true ∧
      (({} : FileUserdataSets).Set "a" none).2.GetBySessionId 1 = .undefined := by
  decide

/-- C12, amended.  For every registry reached from the empty registry by any
sequence of `Set` calls whose values are all non-null, and for every session id,
`GetBySessionId(id)` returns without failing, and what it returns is the null
pointer or a stored value whose session id is `id`. -/
theorem FileUserdataSets.GetBySessionId_total (kvs : List (String × Option FileUserdata))
    (session_id : Nat) (hnn : ∀ kv ∈ kvs, kv.2 ≠ none) :
    ∃ res, (({} : FileUserdataSets).SetAll kvs).GetBySessionId session_id = .returns res ∧
      (res = none ∨
        ∃ e ∈ (({} : FileUserdataSets).SetAll kvs)._userdata_sets, ∃ u,
          e.2 = some u ∧ res = some u ∧ u.GetSessionId = session_id) := by
  have hstored : ∀ e ∈ (({} : FileUserdataSets).SetAll kvs)._userdata_sets, e.2 ≠ none := by
    intro e he
    rcases mem_SetAll _ kvs e he with h | h
    · simp at h
    · exact hnn e h
  unfold FileUserdataSets.GetBySessionId
  rcases scanSessionId_first_match session_id _ hstored with
    ⟨i, e, u, hget, he, hs, -, hres⟩ | ⟨-, hres⟩
  · exact ⟨some u, hres, Or.inr ⟨e, List.get?_mem hget, u, he, rfl, hs⟩⟩
  · exact ⟨none, hres, Or.inl rfl⟩

/-- The amended C12 on three sessions with non-null values. -/
theorem FileUserdataSets.GetBySessionId_total_witness :
    ∃ res,
      (({} : FileUserdataSets).SetAll
        [("s1", some ⟨7, 1⟩), ("s2", some ⟨42, 2⟩), ("s1", some ⟨8, 3⟩)]).GetBySessionId 42 =
          .returns res ∧
      (res = none ∨
        ∃ e ∈ (({} : FileUserdataSets).SetAll
          [("s1", some ⟨7, 1⟩), ("s2", some ⟨42, 2⟩), ("s1", some ⟨8, 3⟩)])._userdata_sets,
          ∃ u, e.2 = some u ∧ res = some u ∧ u.GetSessionId = 42) :=
  FileUserdataSets.GetBySessionId_total
    [("s1", some ⟨7, 1⟩), ("s2", some ⟨42, 2⟩), ("s1", some ⟨8, 3⟩)] 42 (by decide)

/-- C17 (first match in positional order).  For every registry whose stored values
are all non-null and every session id `s`: if some entry's value has session id
`s`, then `GetBySessionId(s)` equals `GetAt(i)` for the least index `i`, below the
number of entries, whose value has session id `s`; if no entry's value has session
id `s`, it returns the null pointer.  The number of entries is `GetCount()`
whenever it fits `uint32_t`.  `GetBySessionId` only reads the registry. -/
theorem FileUserdataSets.GetBySessionId_first_match (r : FileUserdataSets) (s : Nat)
    (hnn : ∀ e ∈ r._userdata_sets, e.2 ≠ none) :
    ((∃ e ∈ r._userdata_sets, ∃ u, e.2 = some u ∧ u.GetSessionId = s) →
        ∃ i u, i < r._userdata_sets.length ∧
          r.GetAt i = .returns (some u) ∧ u.GetSessionId = s ∧
          (∀ j u1, j < i → r.GetAt j = .returns (some u1) → u1.GetSessionId ≠ s) ∧
          r.GetBySessionId s = r.GetAt i) ∧
      ((∀ e ∈ r._userdata_sets, ∀ u, e.2 = some u → u.GetSessionId ≠ s) →
        r.GetBySessionId s = .returns none) ∧
      (r._userdata_sets.length < 2 ^ 32 → r.GetCount = r._userdata_sets.length) := by
  refine ⟨?_, ?_, fun h => Nat.mod_eq_of_lt h⟩
  · rintro ⟨e0, he0, u0, hu0, hs0⟩
    rcases scanSessionId_first_match s _ hnn with
      ⟨i, e, u, hget, he, hs, hbefore, hres⟩ | ⟨hno, -⟩
    · have hi : i < r._userdata_sets.length := by
        by_contra hcon
        rw [List.get?_eq_none.mpr (Nat.le_of_not_lt hcon)] at hget
        cases hget
      have hei : r._userdata_sets[i] = e := by
        have := List.get?_eq_get hi
        rw [hget] at this
        exact (Option.some.inj this).symm
      have hat : r.GetAt i = .returns (some u) := by
        rw [GetAt_of_lt r i hi, hei, he]
      refine ⟨i, u, hi, hat, hs, ?_, ?_⟩
      · intro j u1 hj hatj
        have hjl : j < r._userdata_sets.length := Nat.lt_trans hj hi
        rw [GetAt_of_lt r j hjl] at hatj
        exact hbefore j r._userdata_sets[j] u1 hj (List.get?_eq_get hjl)
          (Outcome.returns.inj hatj)
      · rw [hat]
        exact hres
    · exact absurd hs0 (hno e0 he0 u0 hu0)
  · intro hno
    rcases scanSessionId_first_match s _ hnn with
      ⟨i, e, u, hget, he, hs, -, -⟩ | ⟨-, hres⟩
    · exact absurd hs (hno e (List.get?_mem hget) u he)
    · exact hres

/-- Two entries carry session id 42; the lookup returns the one at the lower
position, index 1. -/
theorem FileUserdataSets.GetBySessionId_first_match_witness :
    (FileUserdataSets.mk
        [("s1", some ⟨7, 1⟩), ("s2", some ⟨42, 2⟩), ("s3", some ⟨42, 3⟩)]).GetBySessionId 42 =
        .returns (some ⟨42, 2⟩) ∧
      (FileUserdataSets.mk
        [("s1", some ⟨7, 1⟩), ("s2", some ⟨42, 2⟩), ("s3", some ⟨42, 3⟩)]).GetAt 1 =
        .returns (some ⟨42, 2⟩) ∧
      (FileUserdataSets.mk
        [("s1", some ⟨7, 1⟩), ("s2", some ⟨42, 2⟩), ("s3", some ⟨42, 3⟩)]).GetBySessionId 5 =
        .returns none :=
  ⟨by decide, by decide,
    (FileUserdataSets.GetBySessionId_first_match
      (FileUserdataSets.mk [("s1", some ⟨7, 1⟩), ("s2", some ⟨42, 2⟩), ("s3", some ⟨42, 3⟩)])
      5 (by decide)).2.1 (by decide)⟩

/-- C18 (replacing keeps every position).  For every registry (its keys unique)
that already contains key `k`, and every value `v`: after `Set(k, v)`,
`GetCount()` is unchanged, `GetKeyAt(i)` is unchanged for every index `i` below the
number of entries, `GetAt(i)` is unchanged for every such index whose key is not
`k`, and `GetAt` at the index of `k` returns `v`. -/
theorem FileUserdataSets.Set_existing_keeps_positions (r : FileUserdataSets) (k : String)
    (v : Option FileUserdata) (hnd : (r._userdata_sets.map Prod.fst).Nodup)
    (hk : k ∈ r._userdata_sets.map Prod.fst) :
    (r.Set k v).2.GetCount = r.GetCount ∧
      (r.Set k v).2._userdata_sets.length = r._userdata_sets.length ∧
      (∀ i, i < r._userdata_sets.length → (r.Set k v).2.GetKeyAt i = r.GetKeyAt i) ∧
      (∀ i, i < r._userdata_sets.length → r.GetKeyAt i ≠ .returns (some k) →
        (r.Set k v).2.GetAt i = r.GetAt i) ∧
      (∀ i, i < r._userdata_sets.length → r.GetKeyAt i = .returns (some k) →
        (r.Set k v).2.GetAt i = .returns v) := by
  have hlen : (r.Set k v).2._userdata_sets.length = r._userdata_sets.length :=
    length_insert_or_assign_of_mem k v _ hk
  have hentry : ∀ i (hi : i < r._userdata_sets.length),
      (r.Set k v).2._userdata_sets.get? i =
        some (if r._userdata_sets[i].1 = k then (k, v) else r._userdata_sets[i]) := by
    intro i hi
    by_cases h : r._userdata_sets[i].1 = k
    · rw [if_pos h]
      exact get?_insert_or_assign_of_eq k v _ i _ hnd (List.get?_eq_get hi) h
    · rw [if_neg h]
      exact get?_insert_or_assign_of_ne k v _ i _ (List.get?_eq_get hi) h
  have hget : ∀ i (hi : i < r._userdata_sets.length) (hi2 : i < (r.Set k v).2._userdata_sets.length),
      (r.Set k v).2._userdata_sets[i] =
        (if r._userdata_sets[i].1 = k then (k, v) else r._userdata_sets[i]) := by
    intro i hi hi2
    have h1 := hentry i hi
    rw [List.get?_eq_get hi2] at h1
    exact Option.some.inj h1
  refine ⟨?_, hlen, ?_, ?_, ?_⟩
  · simp only [FileUserdataSets.GetCount, hlen]
  · intro i hi
    have hi2 : i < (r.Set k v).2._userdata_sets.length := by rw [hlen]; exact hi
    rw [GetKeyAt_of_lt _ i hi2, GetKeyAt_of_lt r i hi, hget i hi hi2]
    by_cases h : r._userdata_sets[i].1 = k
    · rw [if_pos h, h]
    · rw [if_neg h]
  · intro i hi hkey
    have hi2 : i < (r.Set k v).2._userdata_sets.length := by rw [hlen]; exact hi
    have h : ¬ r._userdata_sets[i].1 = k := by
      intro h
      apply hkey
      rw [GetKeyAt_of_lt r i hi, h]
    rw [GetAt_of_lt _ i hi2, GetAt_of_lt r i hi, hget i hi hi2, if_neg h]
  · intro i hi hkey
    have hi2 : i < (r.Set k v).2._userdata_sets.length := by rw [hlen]; exact hi
    have h : r._userdata_sets[i].1 = k := by
      rw [GetKeyAt_of_lt r i hi] at hkey
      exact Option.some.inj (Outcome.returns.inj hkey)
    rw [GetAt_of_lt _ i hi2, hget i hi hi2, if_pos h]

/-- Re-setting "s2" among three sessions: the count, the keys and the other
values stay, the value at index 1 is the new one. -/
theorem FileUserdataSets.Set_existing_keeps_positions_witness :
    ((FileUserdataSets.mk
        [("s1", some ⟨7, 1⟩), ("s2", some ⟨42, 2⟩), ("s3", some ⟨9, 3⟩)]).Set "s2"
          (some ⟨50, 4⟩)).2.GetAt 1 = .returns (some ⟨50, 4⟩) ∧
      ((FileUserdataSets.mk
        [("s1", some ⟨7, 1⟩), ("s2", some ⟨42, 2⟩), ("s3", some ⟨9, 3⟩)]).Set "s2"
          (some ⟨50, 4⟩)).2.GetCount = 3 ∧
      ((FileUserdataSets.mk
        [("s1", some ⟨7, 1⟩), ("s2", some ⟨42, 2⟩), ("s3", some ⟨9, 3⟩)]).Set "s2"
          (some ⟨50, 4⟩)).2.GetKeyAt 2 = .returns (some "s3") :=
  ⟨(FileUserdataSets.Set_existing_keeps_positions
      (FileUserdataSets.mk [("s1", some ⟨7, 1⟩), ("s2", some ⟨42, 2⟩), ("s3", some ⟨9, 3⟩)])
      "s2" (some ⟨50, 4⟩) (by decide) (by decide)).2.2.2.2 1 (by decide) (by decide),
    by decide, by decide⟩

/-! ## Further claims about the fragmentation header -/

/-- C16 (a failed decode is not transactional).  For every prior header state and
every input that starts with a block of offsets `o` and does not continue with
three further blocks and a flag byte (a later block or the flag byte is missing),
`Deserialize` returns `false`, `fragmentation_offset` afterwards holds `o`, the
offsets decoded from the input, whatever it held before, and
`last_fragment_complete` keeps its prior value. -/
theorem FragmentationHeader.failed_decode_keeps_offsets (self : FragmentationHeader)
    (o R : List Nat) (c : Nat) (ho : o.length < 2 ^ 64) (hot : ∀ x ∈ o, x < 2 ^ 64)
    (hR : ∀ b ∈ R, b < 256)
    (hmiss : ¬ ∃ l t p f rest, l.length < 2 ^ 64 ∧ t.length < 2 ^ 64 ∧ p.length < 2 ^ 64 ∧
      R = ov.block ov.sizeof_size_t l ++ (ov.block 2 t ++ (ov.block 1 p ++ f :: rest))) :
    (FragmentationHeader.Deserialize self (ov.block ov.sizeof_size_t o ++ R) c).1 = false ∧
      (FragmentationHeader.Deserialize self
        (ov.block ov.sizeof_size_t o ++ R) c).2.1.fragmentation_offset = o ∧
      (FragmentationHeader.Deserialize self
        (ov.block ov.sizeof_size_t o ++ R) c).2.1.last_fragment_complete =
        self.last_fragment_complete := by
  have eo := FragmentationHeader.map_mod_of_lt (256 ^ ov.sizeof_size_t) o
    (by simpa [ov.sizeof_size_t] using hot)
  unfold FragmentationHeader.Deserialize
  rw [ov.Deserialize_block _ _ _ _ ho, eo]
  simp only
  cases h2 : ov.Deserialize ov.sizeof_size_t R
      ((c + (ov.block ov.sizeof_size_t o).length) % 2 ^ 64) with
  | none => exact ⟨rfl, rfl, rfl⟩
  | some r2 =>
    obtain ⟨v2, b2, c2⟩ := r2
    simp only
    obtain ⟨e2, n2, -, -⟩ := ov.Deserialize_some _ _ _ _ _ _ hR h2
    have hb2 : ∀ b ∈ b2, b < 256 :=
      fun b hb => hR b (by rw [e2]; exact List.mem_append_right _ hb)
    cases h3 : ov.Deserialize 2 b2 c2 with
    | none => exact ⟨rfl, rfl, rfl⟩
    | some r3 =>
      obtain ⟨v3, b3, c3⟩ := r3
      simp only
      obtain ⟨e3, n3, -, -⟩ := ov.Deserialize_some _ _ _ _ _ _ hb2 h3
      have hb3 : ∀ b ∈ b3, b < 256 :=
        fun b hb => hb2 b (by rw [e3]; exact List.mem_append_right _ hb)
      cases h4 : ov.Deserialize 1 b3 c3 with
      | none => exact ⟨rfl, rfl, rfl⟩
      | some r4 =>
        obtain ⟨v4, b4, c4⟩ := r4
        simp only
        obtain ⟨e4, n4, -, -⟩ := ov.Deserialize_some _ _ _ _ _ _ hb3 h4
        cases b4 with
        | nil => exact ⟨rfl, rfl, rfl⟩
        | cons f rest =>
          exact absurd ⟨v2, v3, v4, f, rest, n2, n3, n4, by rw [e2, e3, e4]⟩ hmiss

/-- A header that held offsets `[5]` and a set flag decodes an input made of the
offsets block of `[0, 100]` and nothing else: the call fails, the offsets are now
`[0, 100]`, the flag is still set. -/
theorem FragmentationHeader.failed_decode_keeps_offsets_witness :
    (FragmentationHeader.Deserialize (FragmentationHeader.mk [5] [6] [7] [8] true)
        (ov.block ov.sizeof_size_t [0, 100] ++ []) 0).1 = false ∧
      (FragmentationHeader.Deserialize (FragmentationHeader.mk [5] [6] [7] [8] true)
        (ov.block ov.sizeof_size_t [0, 100] ++ []) 0).2.1.fragmentation_offset = [0, 100] ∧
      (FragmentationHeader.Deserialize (FragmentationHeader.mk [5] [6] [7] [8] true)
        (ov.block ov.sizeof_size_t [0, 100] ++ []) 0).2.1.last_fragment_complete = true :=
  FragmentationHeader.failed_decode_keeps_offsets (FragmentationHeader.mk [5] [6] [7] [8] true)
    [0, 100] [] 0 (by decide) (by decide) (by decide)
    (by
      rintro ⟨l, t, p, f, rest, -, -, -, h⟩
      have hlen := congrArg List.length h
      simp [ov.block_length] at hlen
      omega)

/-- C19 (decoding stops at the end of the header).  For every header `H` (its
elements fitting their C++ types), every byte sequence `T` of trailing data and
every initial value `c` of `bytes_consumed`: `Deserialize` on `Serialize(H)`
followed by `T`, into a freshly constructed header, returns `true`, yields a
header equal to `H`, and leaves `bytes_consumed` at the `size_t` sum of `c` and
the length of `Serialize(H)`, which is `c + len(Serialize(H))` whenever that sum
fits `size_t`; the header and the number of bytes counted do not depend on `T`. -/
theorem FragmentationHeader.decode_stops_at_end (H : FragmentationHeader) (T : List Nat)
    (c : Nat) (hwt : H.WellTyped) :
    FragmentationHeader.Deserialize {} (H.Serialize ++ T) c =
        (true, H, (c + H.Serialize.length) % 2 ^ 64) ∧
      (c + H.Serialize.length < 2 ^ 64 →
        FragmentationHeader.Deserialize {} (H.Serialize ++ T) c =
          (true, H, c + H.Serialize.length)) ∧
      FragmentationHeader.eq
        (FragmentationHeader.Deserialize {} (H.Serialize ++ T) c).2.1 H = true ∧
      FragmentationHeader.Deserialize {} (H.Serialize ++ T) c =
        FragmentationHeader.Deserialize {} H.Serialize c := by
  have h := FragmentationHeader.Deserialize_Serialize_append {} H T c hwt
  have h0 := FragmentationHeader.Deserialize_Serialize_append {} H [] c hwt
  rw [List.append_nil] at h0
  refine ⟨h, ?_, ?_, ?_⟩
  · intro hfit
    rw [h, Nat.mod_eq_of_lt hfit]
  · rw [h]
    simp [FragmentationHeader.eq]
  · rw [h, h0]

/-- The scenario header followed by three payload bytes, decoded from a counter
that stands at 10: the header comes back and the counter stands at 100. -/
theorem FragmentationHeader.decode_stops_at_end_witness :
    FragmentationHeader.Deserialize {}
        ((FragmentationHeader.mk [0, 100, 250] [100, 150, 80] [0, 33, 66] [96, 96, 96]
          true).Serialize ++ [1, 2, 3]) 10 =
      (true, FragmentationHeader.mk [0, 100, 250] [100, 150, 80] [0, 33, 66] [96, 96, 96] true,
        10 + (FragmentationHeader.mk [0, 100, 250] [100, 150, 80] [0, 33, 66] [96, 96, 96]
          true).Serialize.length) :=
  (FragmentationHeader.decode_stops_at_end
    (FragmentationHeader.mk [0, 100, 250] [100, 150, 80] [0, 33, 66] [96, 96, 96] true)
    [1, 2, 3] 10 (by decide)).2.1 (by decide)
